import Mathlib

/-!
Verification of the client-side workspace editing and reconciliation model of
the homeproxy control-panel browser extension.

Strings are modeled as lists of characters (`Str`) so that every operation
computes by kernel reduction.  JavaScript string primitives used by the source
(`trim`, `toLowerCase`, `split`, numeric parsing/printing, the WHATWG `URL`
hostname parser) are given explicit executable models for the ASCII inputs the
workspace handles; each model is documented next to its definition.
JavaScript numbers that hold priorities are modeled as `Int`,
`Number.MAX_SAFE_INTEGER` as the corresponding integer literal, and
`localeCompare` on identifiers as code-point lexicographic comparison.
-/

/-- Character-list model of JavaScript strings. -/
abbrev Str := List Char

/-- Embed a Lean string literal into the model. -/
def strOf (s : String) : Str := s.data

/-- Model of the whitespace class recognized by `String.prototype.trim`
(ASCII part: space, tab, line feed, carriage return, vertical tab, form feed). -/
def isJsWs (c : Char) : Bool :=
  c = ' ' || c = '\t' || c = '\n' || c = '\r' || c = '\x0b' || c = '\x0c'

/-- Drop leading JS whitespace. -/
def dropLeadWs : Str → Str
  | [] => []
  | c :: rest => if isJsWs c then dropLeadWs rest else c :: rest

/-- Model of `String.prototype.trim`: strip leading whitespace, then strip
trailing whitespace (as leading whitespace of the reversal). -/
def trimStr (s : Str) : Str :=
  ((dropLeadWs (dropLeadWs s).reverse)).reverse

/-- Boolean test: does the list start with the given pattern? -/
def strStarts : Str → Str → Bool
  | _, [] => true
  | [], _ :: _ => false
  | c :: cs, d :: ds => c = d && strStarts cs ds

/-- Boolean test: does the list end with the given pattern? -/
def strEnds (s p : Str) : Bool := strStarts s.reverse p.reverse

/-- Slice off `n` characters from the front and `m` from the back,
modeling `String.prototype.slice(n, -m)`. -/
def sliceDrop (s : Str) (n m : Nat) : Str :=
  (s.drop n).take (s.length - n - m)

theorem dropLeadWs_dropLeadWs (s : Str) : dropLeadWs (dropLeadWs s) = dropLeadWs s := by
  induction s with
  | nil => rfl
  | cons c rest ih =>
      by_cases h : isJsWs c = true
      · simp [dropLeadWs, h, ih]
      · simp [dropLeadWs, h]

theorem dropLeadWs_suffix (s : Str) : ∃ p, p ++ dropLeadWs s = s := by
  induction s with
  | nil => exact ⟨[], rfl⟩
  | cons c rest ih =>
      by_cases h : isJsWs c = true
      · obtain ⟨p, hp⟩ := ih
        exact ⟨c :: p, by simp [dropLeadWs, h, hp]⟩
      · exact ⟨[], by simp [dropLeadWs, h]⟩

/-- The head of `dropLeadWs s` is never whitespace. -/
theorem dropLeadWs_head (s : Str) (c : Char) (r : Str)
    (h : dropLeadWs s = c :: r) : isJsWs c = false := by
  induction s with
  | nil => simp [dropLeadWs] at h
  | cons d rest ih =>
      by_cases hd : isJsWs d = true
      · exact ih (by simpa [dropLeadWs, hd] using h)
      · rw [dropLeadWs, if_neg hd] at h
        cases h
        simpa using hd

theorem dropLeadWs_of_head (s : Str)
    (h : ∀ c r, s = c :: r → isJsWs c = false) : dropLeadWs s = s := by
  cases s with
  | nil => rfl
  | cons c rest => simp [dropLeadWs, h c rest rfl]

theorem trimStr_trimStr (s : Str) : trimStr (trimStr s) = trimStr s := by
  unfold trimStr
  set s1 := dropLeadWs s with hs1
  -- the inner trim: t = reverse (dropLeadWs (reverse s1))
  set u := dropLeadWs s1.reverse with hu
  -- u has a non-whitespace head, and u is a suffix of s1.reverse
  have hu2 : dropLeadWs u = u := by
    apply dropLeadWs_of_head
    intro c r h
    exact dropLeadWs_head s1.reverse c r (hu ▸ h)
  -- goal after unfolding: trim of (u.reverse) equals u.reverse
  -- first: dropLeadWs u.reverse = u.reverse requires u.reverse head non-ws,
  -- i.e. last of u is s1's head region... we argue via u.reverse ++ _ = s1
  obtain ⟨p, hp⟩ := dropLeadWs_suffix s1.reverse
  -- s1.reverse = p ++ u, hence s1 = u.reverse ++ p.reverse
  have hs1eq : s1 = u.reverse ++ p.reverse := by
    have := congrArg List.reverse hp
    simpa [hu] using this.symm
  have hrevhead : dropLeadWs u.reverse = u.reverse := by
    apply dropLeadWs_of_head
    intro c r h
    -- c is the head of u.reverse, hence the head of s1 = dropLeadWs s
    have : s1 = c :: (r ++ p.reverse) := by simp [hs1eq, h]
    exact dropLeadWs_head s c (r ++ p.reverse) (hs1 ▸ this)
  rw [hrevhead]
  rw [List.reverse_reverse, hu2]

/-- A string with no whitespace characters is unchanged by `trimStr`. -/
theorem trimStr_of_no_ws (s : Str) (h : ∀ c ∈ s, isJsWs c = false) :
    trimStr s = s := by
  have h1 : dropLeadWs s = s := by
    apply dropLeadWs_of_head
    intro c r hcr
    exact h c (by simp [hcr])
  unfold trimStr
  rw [h1]
  have h2 : dropLeadWs s.reverse = s.reverse := by
    apply dropLeadWs_of_head
    intro c r hcr
    apply h c
    have : c ∈ s.reverse := by simp [hcr]
    simpa using this
  rw [h2, List.reverse_reverse]

/-! ## Identifier Normalizer (RulesTab.tsx: `normalizeOutboundTarget`,
`toRuleSetOutboundValue`) -/

/-- Test for the wrapped node-reference wire form `cfg-<id>-out`
(source condition: `startsWith("cfg-") && endsWith("-out") && length > 8`). -/
def isCfgWrapped (s : Str) : Bool :=
  strStarts s (strOf "cfg-") && strEnds s (strOf "-out") && decide (s.length > 8)

/-- The `<id>` inside a `cfg-<id>-out` form: `slice(4, -4)`. -/
def cfgInner (s : Str) : Str := sliceDrop s 4 4

/-- Embedding of `normalizeOutboundTarget` (RulesTab.tsx lines 496-504). -/
def normalizeOutboundTarget (value : Str) : Str :=
  let clean := trimStr value
  if clean = [] ∨ clean = strOf "direct" ∨ clean = strOf "direct-out" then
    strOf "direct"
  else if clean = strOf "block" ∨ clean = strOf "block-out" then
    strOf "block"
  else if isCfgWrapped clean then
    cfgInner clean
  else
    clean

/-- Embedding of `toRuleSetOutboundValue` (RulesTab.tsx lines 506-511). -/
def toRuleSetOutboundValue (value : Str) : Str :=
  let normalized := normalizeOutboundTarget value
  if normalized = strOf "direct" then strOf "direct"
  else if normalized = strOf "block" then strOf "block"
  else normalized

theorem normalizeOutboundTarget_direct :
    normalizeOutboundTarget (strOf "direct") = strOf "direct" := by decide

theorem normalizeOutboundTarget_block :
    normalizeOutboundTarget (strOf "block") = strOf "block" := by decide

/-- On a trimmed string that falls into no special branch, the normalizer is
the identity. -/
theorem normalizeOutboundTarget_passthrough (s : Str)
    (htrim : trimStr s = s)
    (h1 : ¬(s = [] ∨ s = strOf "direct" ∨ s = strOf "direct-out"))
    (h2 : ¬(s = strOf "block" ∨ s = strOf "block-out"))
    (h3 : isCfgWrapped s = false) :
    normalizeOutboundTarget s = s := by
  unfold normalizeOutboundTarget
  rw [htrim, if_neg h1, if_neg h2, if_neg (by simp [h3])]

/-- C4 counterexample: the normalizer is not idempotent on a doubly wrapped
node reference. -/
theorem normalizeOutboundTarget_not_idempotent :
    normalizeOutboundTarget (normalizeOutboundTarget (strOf "cfg-cfg-a-out-out")) ≠
      normalizeOutboundTarget (strOf "cfg-cfg-a-out-out") := by decide

/-- C4 (amended): `normalizeOutboundTarget` applied twice agrees with one
application for every string except a wrapped `cfg-<id>-out` form whose inner
id is not itself a fixed point of the normalizer (e.g. an inner id that is
again wrapped, carries surrounding whitespace, is empty, or is a wire
sentinel). -/
theorem normalizeOutboundTarget_idempotent_of_inner_fixed (s : Str)
    (h : isCfgWrapped (trimStr s) = true →
      normalizeOutboundTarget (cfgInner (trimStr s)) = cfgInner (trimStr s)) :
    normalizeOutboundTarget (normalizeOutboundTarget s) = normalizeOutboundTarget s := by
  by_cases h1 : trimStr s = [] ∨ trimStr s = strOf "direct" ∨ trimStr s = strOf "direct-out"
  · have hs : normalizeOutboundTarget s = strOf "direct" := by
      unfold normalizeOutboundTarget
      rw [if_pos h1]
    rw [hs, normalizeOutboundTarget_direct]
  · by_cases h2 : trimStr s = strOf "block" ∨ trimStr s = strOf "block-out"
    · have hs : normalizeOutboundTarget s = strOf "block" := by
        unfold normalizeOutboundTarget
        rw [if_neg h1, if_pos h2]
      rw [hs, normalizeOutboundTarget_block]
    · by_cases h3 : isCfgWrapped (trimStr s) = true
      · have hs : normalizeOutboundTarget s = cfgInner (trimStr s) := by
          unfold normalizeOutboundTarget
          rw [if_neg h1, if_neg h2, if_pos (by simp [h3])]
        rw [hs, h h3]
      · have hs : normalizeOutboundTarget s = trimStr s := by
          unfold normalizeOutboundTarget
          rw [if_neg h1, if_neg h2,
            if_neg (by simp [Bool.not_eq_true] at h3; simp [h3])]
        rw [hs]
        exact normalizeOutboundTarget_passthrough (trimStr s) (trimStr_trimStr s) h1 h2
          (by simpa [Bool.not_eq_true] using h3)

/-- C4 witness: the amended idempotence applied to a bare node id. -/
theorem normalizeOutboundTarget_idempotent_witness :
    normalizeOutboundTarget (normalizeOutboundTarget (strOf "node_a")) =
      normalizeOutboundTarget (strOf "node_a") :=
  normalizeOutboundTarget_idempotent_of_inner_fixed (strOf "node_a") (by decide)

/-! ## Domain helpers (lib/domain.ts) and the URL-hostname host primitive -/

/-- Uppercase-to-lowercase ASCII letter pairs. -/
def lowerPairs : List (Char × Char) :=
  [('A','a'), ('B','b'), ('C','c'), ('D','d'), ('E','e'), ('F','f'), ('G','g'),
   ('H','h'), ('I','i'), ('J','j'), ('K','k'), ('L','l'), ('M','m'), ('N','n'),
   ('O','o'), ('P','p'), ('Q','q'), ('R','r'), ('S','s'), ('T','t'), ('U','u'),
   ('V','v'), ('W','w'), ('X','x'), ('Y','y'), ('Z','z')]

/-- First-match lookup in a pair list (model of `Map.get`; also reused for the
temporary-id maps of the apply step). -/
def pairLookup : List (Char × Char) → Char → Option Char
  | [], _ => none
  | (k, v) :: rest, c => if c = k then some v else pairLookup rest c

/-- Model of `String.prototype.toLowerCase` on one ASCII character. -/
def asciiLower (c : Char) : Char := (pairLookup lowerPairs c).getD c

/-- Model of `String.prototype.toLowerCase` (ASCII case mapping; the hostnames
the workspace handles are ASCII). -/
def asciiLowerStr (s : Str) : Str := s.map asciiLower

theorem pairLookup_mem {l : List (Char × Char)} {c d : Char}
    (h : pairLookup l c = some d) : (c, d) ∈ l := by
  induction l with
  | nil => simp [pairLookup] at h
  | cons p rest ih =>
      obtain ⟨k, v⟩ := p
      by_cases hc : c = k
      · rw [pairLookup, if_pos hc] at h
        cases h
        simp [hc]
      · rw [pairLookup, if_neg hc] at h
        exact List.mem_cons_of_mem _ (ih h)

theorem lowerPairs_value_not_key : ∀ p ∈ lowerPairs, pairLookup lowerPairs p.2 = none := by
  decide

theorem asciiLower_asciiLower (c : Char) : asciiLower (asciiLower c) = asciiLower c := by
  unfold asciiLower
  cases h : pairLookup lowerPairs c with
  | none => simp [h]
  | some d =>
      have hmem := pairLookup_mem h
      have := lowerPairs_value_not_key (c, d) hmem
      simp at this
      simp [this]

theorem asciiLowerStr_map_fixed (s : Str) :
    asciiLowerStr (asciiLowerStr s) = asciiLowerStr s := by
  unfold asciiLowerStr
  rw [List.map_map]
  exact List.map_congr_left (fun c _ => asciiLower_asciiLower c)

/-- Take characters until one of the stop characters is hit (exclusive). -/
def takeUntilChars (stops : List Char) : Str → Str
  | [] => []
  | c :: rest => if stops.contains c then [] else c :: takeUntilChars stops rest

/-- The part after the last occurrence of `c` (or the whole string). -/
def afterLastChar (c : Char) (s : Str) : Str :=
  (takeUntilChars [c] s.reverse).reverse

/-- Split at the first occurrence of `c`: the part before, and (if `c` occurs)
the part after. -/
def splitFirstChar (c : Char) : Str → Str × Option Str
  | [] => ([], none)
  | d :: rest =>
      if d = c then ([], some rest)
      else
        let r := splitFirstChar c rest
        (d :: r.1, r.2)

/-- Code points that may not occur in a parsed URL host (the WHATWG forbidden
host/domain code points restricted to the ASCII range, plus `%`). -/
def isForbiddenHost (c : Char) : Bool :=
  isJsWs c || c = '#' || c = '/' || c = ':' || c = '<' || c = '>' || c = '?' ||
    c = '@' || c = '[' || c = '\\' || c = ']' || c = '^' || c = '|' || c = '%' ||
    c = '\x00'

/-- Model of the host primitive `new URL(value).hostname` for an ASCII `value`
that starts with `http://` or `https://`: tab/newline characters are removed,
the authority runs to the first `/`, `?` or `#`, userinfo before the last `@`
is dropped, a trailing `:port` (digits only) is dropped, and the remaining
host must be non-empty and contain no forbidden code point. -/
def urlAuthorityHost (rest : Str) : Option Str :=
  if (splitFirstChar ':' (afterLastChar '@' (takeUntilChars ['/', '?', '#'] rest))).1 = [] then
    none
  else if ((splitFirstChar ':' (afterLastChar '@' (takeUntilChars ['/', '?', '#'] rest))).2.getD
      []).all Char.isDigit = false then
    none
  else if ((splitFirstChar ':' (afterLastChar '@' (takeUntilChars ['/', '?', '#'] rest))).1).any
      isForbiddenHost then
    none
  else
    some (splitFirstChar ':' (afterLastChar '@' (takeUntilChars ['/', '?', '#'] rest))).1

def urlHostname (value : Str) : Option Str :=
  if strStarts (value.filter (fun c => ¬(c = '\t' ∨ c = '\n' ∨ c = '\r'))) (strOf "https://") then
    urlAuthorityHost ((value.filter (fun c => ¬(c = '\t' ∨ c = '\n' ∨ c = '\r'))).drop 8)
  else if strStarts (value.filter (fun c => ¬(c = '\t' ∨ c = '\n' ∨ c = '\r'))) (strOf "http://") then
    urlAuthorityHost ((value.filter (fun c => ¬(c = '\t' ∨ c = '\n' ∨ c = '\r'))).drop 7)
  else
    none

/-- The scheme-prepending, URL-parsing and host-validation part of
`normalizeDomain`, applied to the already trimmed and lowercased value. -/
def normalizeDomainCore (value : Str) : Option Str :=
  match urlHostname
      (if strStarts value (strOf "http://") || strStarts value (strOf "https://") then value
       else strOf "https://" ++ value) with
  | none => none
  | some h =>
      if asciiLowerStr (trimStr h) = [] ∨ (asciiLowerStr (trimStr h)).contains '.' = false then
        none
      else some (asciiLowerStr (trimStr h))

/-- Embedding of `normalizeDomain` (lib/domain.ts lines 11-28). -/
def normalizeDomain (input : Str) : Option Str :=
  if input = [] then none
  else if asciiLowerStr (trimStr input) = [] then none
  else normalizeDomainCore (asciiLowerStr (trimStr input))

/-- Model of `String.prototype.split` with a one-character separator:
`"a.b".split(".") = ["a","b"]`, `"".split(".") = [""]`. -/
def splitOnChar (sep : Char) : Str → List Str
  | [] => [[]]
  | d :: rest =>
      let r := splitOnChar sep rest
      if d = sep then [] :: r
      else
        match r with
        | [] => [[d]]
        | h :: t => (d :: h) :: t

/-- Model of `Array.prototype.join(".")`. -/
def joinDots : List Str → Str
  | [] => []
  | [p] => p
  | p :: rest => p ++ '.' :: joinDots rest

/-- A string made of digits only, and non-empty (the `/^\d+$/` test). -/
def allDigits1 (s : Str) : Bool := decide (s ≠ []) && s.all Char.isDigit

/-- Model of `Number.parseInt(s, 10)` for an all-digits string. -/
def strToNat (s : Str) : Nat :=
  s.foldl (fun acc c => acc * 10 + (c.toNat - 48)) 0

/-- Embedding of `isIpv4Address` (lib/domain.ts lines 1-9). -/
def isIpv4Address (domain : Str) : Bool :=
  let parts := splitOnChar '.' domain
  decide (parts.length = 4) &&
    parts.all (fun part => allDigits1 part && decide (strToNat part ≤ 255))

/-- Embedding of `isSubdomain` (lib/domain.ts lines 40-44): more than two
non-empty dot-separated labels (and not an IPv4 literal). -/
def isSubdomain (domain : Str) : Bool :=
  if isIpv4Address domain then false
  else decide (((splitOnChar '.' domain).filter (fun p => p ≠ [])).length > 2)

/-- Embedding of `getRootDomain` (lib/domain.ts lines 46-51). -/
def getRootDomain (domain : Str) : Str :=
  if isIpv4Address domain then domain
  else
    let parts := (splitOnChar '.' domain).filter (fun p => p ≠ [])
    if parts.length ≤ 2 then domain
    else joinDots (parts.drop (parts.length - 2))

/-! ## Field Validator (RulesTab.tsx: `isValidPortValue`, `normalizePortRange`,
`normalizeIpOrCidr`, `normalizeRuleFieldValue`) -/

/-- Decimal digit character for `n < 10`. -/
def digitChar (n : Nat) : Char :=
  if n = 0 then '0' else if n = 1 then '1' else if n = 2 then '2'
  else if n = 3 then '3' else if n = 4 then '4' else if n = 5 then '5'
  else if n = 6 then '6' else if n = 7 then '7' else if n = 8 then '8' else '9'

/-- Fuel-driven decimal printer (most significant digit first). -/
def natToStrAux : Nat → Nat → Str
  | 0, _ => []
  | fuel + 1, n =>
      if n < 10 then [digitChar n]
      else natToStrAux fuel (n / 10) ++ [digitChar (n % 10)]

/-- Model of `String(n)` for a natural number (decimal, no leading zeros). -/
def natToStr (n : Nat) : Str := natToStrAux (n + 1) n

/-- Embedding of `isValidPortValue` (RulesTab.tsx lines 398-402):
the `/^\d{1,5}$/` shape test plus the parsed range check. -/
def isValidPortValue (value : Str) : Bool :=
  (decide (1 ≤ value.length) && decide (value.length ≤ 5) && value.all Char.isDigit) &&
    (decide (1 ≤ strToNat value) && decide (strToNat value ≤ 65535))

/-- Embedding of `normalizePortRange` (RulesTab.tsx lines 404-417). -/
def normalizePortRange (value : Str) : Option Str :=
  match splitOnChar ':'
      ((value.filter (fun c => !isJsWs c)).map (fun c => if c = '-' then ':' else c)) with
  | [lo, hi] =>
      if isValidPortValue lo && isValidPortValue hi then
        if strToNat lo > strToNat hi then none
        else some (natToStr (strToNat lo) ++ ':' :: natToStr (strToNat hi))
      else none
  | _ => none

/-- Character class `[-.:%0-9a-fA-F]` of the CIDR-literal test. -/
def inCidrClass (c : Char) : Bool :=
  c = '-' || c = '.' || c = ':' || c = '%' || c.isDigit ||
    (decide (97 ≤ c.toNat) && decide (c.toNat ≤ 102)) ||
    (decide (65 ≤ c.toNat) && decide (c.toNat ≤ 70))

/-- The `/^[-.:%0-9a-fA-F]+\/\d{1,3}$/` test: since `/` is outside the class,
the string is one class run, one `/`, and one to three digits. -/
def cidrLike (s : Str) : Bool :=
  match splitOnChar '/' s with
  | [a, d] =>
      decide (a ≠ []) && a.all inCidrClass &&
        decide (1 ≤ d.length) && decide (d.length ≤ 3) && d.all Char.isDigit
  | _ => false

/-- The `/^\d{1,3}(?:\.\d{1,3}){3}$/` shape test. -/
def ipv4Shape (s : Str) : Bool :=
  let parts := splitOnChar '.' s
  decide (parts.length = 4) &&
    parts.all (fun p => decide (1 ≤ p.length) && decide (p.length ≤ 3) && p.all Char.isDigit)

/-- Hex-or-colon character class `[0-9a-fA-F:]`. -/
def inHexColonClass (c : Char) : Bool :=
  c.isDigit || c = ':' ||
    (decide (97 ≤ c.toNat) && decide (c.toNat ≤ 102)) ||
    (decide (65 ≤ c.toNat) && decide (c.toNat ≤ 70))

/-- Embedding of `normalizeIpOrCidr` (RulesTab.tsx lines 419-439). -/
def normalizeIpOrCidr (value : Str) : Option Str :=
  if trimStr value = [] then none
  else if cidrLike (trimStr value) then some (trimStr value)
  else if ipv4Shape (trimStr value) then
    if decide (((splitOnChar '.' (trimStr value)).map strToNat).length = 4) &&
        ((splitOnChar '.' (trimStr value)).map strToNat).all (fun p => decide (p ≤ 255)) then
      some (joinDots (((splitOnChar '.' (trimStr value)).map strToNat).map natToStr) ++
        strOf "/32")
    else none
  else if decide (trimStr value ≠ []) && (trimStr value).all inHexColonClass &&
      (trimStr value).contains ':' then
    some (trimStr value ++ strOf "/128")
  else none

/-- The match-criteria field kinds, in the order of `RULE_FIELD_DEFINITIONS`. -/
inductive RuleFieldKey where
  | domain | domainSuffix | domainKeyword | domainRegex | ruleSet
  | ipCidr | sourceIpCidr | port | portRange | sourcePort | sourcePortRange
  deriving DecidableEq, Repr

/-- `RULE_FIELD_ORDER` (RulesTab.tsx line 249). -/
def RULE_FIELD_ORDER : List RuleFieldKey :=
  [.domain, .domainSuffix, .domainKeyword, .domainRegex, .ruleSet,
   .ipCidr, .sourceIpCidr, .port, .portRange, .sourcePort, .sourcePortRange]

/-- Strip one leading `*.` (the `value.replace(/^\*\./, "")` step). -/
def stripWildcardDot (s : Str) : Str :=
  if strStarts s (strOf "*.") then s.drop 2 else s

/-- Embedding of `normalizeRuleFieldValue` (RulesTab.tsx lines 441-494).
A rejection is `none` (the Russian error messages are view text and are
elided); `regexOk` abstracts the host `RegExp`-compilation primitive, which
is a pure function of the pattern string. -/
def normalizeRuleFieldValue (regexOk : Str → Bool) (field : RuleFieldKey)
    (rawValue : Str) (ruleSetIds : List Str) : Option Str :=
  match field with
  | .ruleSet =>
      if trimStr rawValue = [] then none
      else if ruleSetIds.contains (trimStr rawValue) then some (trimStr rawValue) else none
  | .domain => if trimStr rawValue = [] then none else normalizeDomain (trimStr rawValue)
  | .domainSuffix =>
      if trimStr rawValue = [] then none
      else normalizeDomain (stripWildcardDot (trimStr rawValue))
  | .domainRegex =>
      if trimStr rawValue = [] then none
      else if regexOk (trimStr rawValue) then some (trimStr rawValue) else none
  | .ipCidr | .sourceIpCidr =>
      if trimStr rawValue = [] then none else normalizeIpOrCidr (trimStr rawValue)
  | .port | .sourcePort =>
      if trimStr rawValue = [] then none
      else if isValidPortValue (trimStr rawValue) then
        some (natToStr (strToNat (trimStr rawValue)))
      else none
  | .portRange | .sourcePortRange =>
      if trimStr rawValue = [] then none else normalizePortRange (trimStr rawValue)
  | .domainKeyword => if trimStr rawValue = [] then none else some (trimStr rawValue)

/-! ## Printer/parser lemmas for the retraction property -/

theorem digitChar_toNat (d : Nat) (h : d < 10) : (digitChar d).toNat = 48 + d := by
  interval_cases d <;> decide

theorem digitChar_isDigit (d : Nat) (h : d < 10) : (digitChar d).isDigit = true := by
  interval_cases d <;> decide

theorem strToNat_append_digit (a : Str) (c : Char) :
    strToNat (a ++ [c]) = 10 * strToNat a + (c.toNat - 48) := by
  unfold strToNat
  rw [List.foldl_append]
  simp [Nat.mul_comm]

theorem natToStrAux_roundtrip (fuel n : Nat) (h : n < fuel) :
    strToNat (natToStrAux fuel n) = n := by
  induction fuel generalizing n with
  | zero => omega
  | succ fuel ih =>
      by_cases h10 : n < 10
      · simp only [natToStrAux, if_pos h10]
        have : strToNat [digitChar n] = n := by
          unfold strToNat
          simp [digitChar_toNat n h10]
        exact this
      · simp only [natToStrAux, if_neg h10]
        rw [strToNat_append_digit]
        have hdiv : n / 10 < fuel := by omega
        rw [ih (n / 10) hdiv]
        rw [digitChar_toNat (n % 10) (Nat.mod_lt n (by omega))]
        omega

theorem natToStr_roundtrip (n : Nat) : strToNat (natToStr n) = n :=
  natToStrAux_roundtrip (n + 1) n (Nat.lt_succ_self n)

theorem natToStrAux_digits (fuel n : Nat) :
    ∀ c ∈ natToStrAux fuel n, c.isDigit = true := by
  induction fuel generalizing n with
  | zero => intro c hc; simp [natToStrAux] at hc
  | succ fuel ih =>
      intro c hc
      by_cases h10 : n < 10
      · simp only [natToStrAux, if_pos h10, List.mem_singleton] at hc
        exact hc ▸ digitChar_isDigit n h10
      · simp only [natToStrAux, if_neg h10, List.mem_append, List.mem_singleton] at hc
        rcases hc with hc | hc
        · exact ih (n / 10) c hc
        · exact hc ▸ digitChar_isDigit (n % 10) (Nat.mod_lt n (by omega))

theorem natToStr_digits (n : Nat) : ∀ c ∈ natToStr n, c.isDigit = true :=
  natToStrAux_digits (n + 1) n

theorem natToStr_ne_nil (n : Nat) : natToStr n ≠ [] := by
  unfold natToStr natToStrAux
  by_cases h10 : n < 10
  · simp [h10]
  · simp [h10]

theorem natToStrAux_length (fuel n k : Nat) (hf : n < fuel) (hk : n < 10 ^ k)
    (h1 : 1 ≤ k) : (natToStrAux fuel n).length ≤ k := by
  induction fuel generalizing n k with
  | zero => omega
  | succ fuel ih =>
      by_cases h10 : n < 10
      · simp [natToStrAux, if_pos h10]
        exact h1
      · simp only [natToStrAux, if_neg h10, List.length_append, List.length_singleton]
        have hk2 : 2 ≤ k := by
          by_contra hlt
          have : k = 1 := by omega
          subst this
          simp at hk
          omega
        have hdivk : n / 10 < 10 ^ (k - 1) := by
          rw [Nat.div_lt_iff_lt_mul (by omega : 0 < 10)]
          calc n < 10 ^ k := hk
          _ = 10 ^ (k - 1) * 10 := by
              rw [← Nat.pow_succ]
              congr 1
              omega
        have := ih (n / 10) (k - 1) (by omega) hdivk (by omega)
        omega

theorem natToStr_length_le (n k : Nat) (hk : n < 10 ^ k) (h1 : 1 ≤ k) :
    (natToStr n).length ≤ k :=
  natToStrAux_length (n + 1) n k (Nat.lt_succ_self n) hk h1

theorem isDigit_not_ws (c : Char) (h : c.isDigit = true) : isJsWs c = false := by
  simp only [isJsWs, Bool.or_eq_false_iff, decide_eq_false_iff_not]
  refine ⟨⟨⟨⟨⟨?_, ?_⟩, ?_⟩, ?_⟩, ?_⟩, ?_⟩ <;>
    · rintro rfl
      exact absurd h (by decide)

/-! ## Split/scan lemmas -/

theorem splitOnChar_no_sep (sep : Char) (s : Str) (h : ∀ c ∈ s, c ≠ sep) :
    splitOnChar sep s = [s] := by
  induction s with
  | nil => rfl
  | cons d rest ih =>
      have hd : d ≠ sep := h d (by simp)
      have hrest := ih (fun c hc => h c (by simp [hc]))
      simp [splitOnChar, hd, hrest]

theorem splitOnChar_append_sep (sep : Char) (a b : Str) (h : ∀ c ∈ a, c ≠ sep) :
    splitOnChar sep (a ++ sep :: b) = a :: splitOnChar sep b := by
  induction a with
  | nil => simp [splitOnChar]
  | cons d rest ih =>
      have hd : d ≠ sep := h d (by simp)
      have hrest := ih (fun c hc => h c (by simp [hc]))
      simp only [List.cons_append, splitOnChar, List.append_eq, if_neg hd]
      rw [hrest]

theorem takeUntilChars_of_no_stop (stops : List Char) (s : Str)
    (h : ∀ c ∈ s, stops.contains c = false) : takeUntilChars stops s = s := by
  induction s with
  | nil => rfl
  | cons d rest ih =>
      have hd := h d (by simp)
      rw [takeUntilChars, if_neg (by simp [hd]; simpa using hd),
        ih (fun c hc => h c (by simp [hc]))]

theorem afterLastChar_of_no_occ (k : Char) (s : Str) (h : ∀ c ∈ s, ¬(c = k)) :
    afterLastChar k s = s := by
  unfold afterLastChar
  rw [takeUntilChars_of_no_stop]
  · exact List.reverse_reverse s
  · intro c hc
    simp only [List.contains_cons, List.contains_nil, Bool.or_false]
    exact decide_eq_false (h c (List.mem_reverse.mp hc))

theorem splitFirstChar_of_no_occ (k : Char) (s : Str) (h : ∀ c ∈ s, ¬(c = k)) :
    splitFirstChar k s = (s, none) := by
  induction s with
  | nil => rfl
  | cons d rest ih =>
      have hd := h d (by simp)
      simp [splitFirstChar, hd, ih (fun c hc => h c (by simp [hc]))]

theorem strStarts_mem (s p : Str) (h : strStarts s p = true) : ∀ c ∈ p, c ∈ s := by
  induction p generalizing s with
  | nil => simp
  | cons d ds ih =>
      cases s with
      | nil => simp [strStarts] at h
      | cons e es =>
          simp only [strStarts, Bool.and_eq_true, decide_eq_true_eq] at h
          intro c hc
          rcases List.mem_cons.mp hc with rfl | hc2
          · simp [h.1]
          · exact List.mem_cons_of_mem _ (ih es h.2 c hc2)

theorem strStarts_append_self (p s : Str) : strStarts (p ++ s) p = true := by
  induction p with
  | nil => cases s <;> rfl
  | cons d ds ih => simp [strStarts, ih]

theorem mem_dropLeadWs (s : Str) (c : Char) (h : c ∈ dropLeadWs s) : c ∈ s := by
  obtain ⟨p, hp⟩ := dropLeadWs_suffix s
  rw [← hp]
  exact List.mem_append_right p h

theorem mem_trimStr (s : Str) (c : Char) (h : c ∈ trimStr s) : c ∈ s := by
  unfold trimStr at h
  have h1 := List.mem_reverse.mp h
  have h2 := mem_dropLeadWs _ _ h1
  have h3 := List.mem_reverse.mp h2
  exact mem_dropLeadWs _ _ h3

/-! ## Fixed-point properties of `normalizeDomain` -/

/-- Invariant satisfied by every hostname `normalizeDomain` returns. -/
def goodHost (v : Str) : Prop :=
  v ≠ [] ∧ v.contains '.' = true ∧
    ∀ c ∈ v, isForbiddenHost c = false ∧ asciiLower c = c

theorem lowerPairs_value_not_forbidden :
    ∀ p ∈ lowerPairs, isForbiddenHost p.2 = false := by decide

theorem asciiLower_not_forbidden (c : Char) (h : isForbiddenHost c = false) :
    isForbiddenHost (asciiLower c) = false := by
  unfold asciiLower
  cases hc : pairLookup lowerPairs c with
  | none => simpa using h
  | some d =>
      have := lowerPairs_value_not_forbidden (c, d) (pairLookup_mem hc)
      simpa using this

theorem ws_forbidden (c : Char) (h : isJsWs c = true) : isForbiddenHost c = true := by
  unfold isForbiddenHost
  simp [h]

theorem urlAuthorityHost_spec (u h : Str) (hu : urlAuthorityHost u = some h) :
    h ≠ [] ∧ h.any isForbiddenHost = false := by
  unfold urlAuthorityHost at hu
  split_ifs at hu with g1 g2 g3
  cases hu
  exact ⟨g1, by simpa using g3⟩

theorem urlHostname_spec (u h : Str) (hu : urlHostname u = some h) :
    h ≠ [] ∧ h.any isForbiddenHost = false := by
  unfold urlHostname at hu
  split_ifs at hu <;> exact urlAuthorityHost_spec _ _ hu

theorem normalizeDomainCore_goodHost (s v : Str) (h : normalizeDomainCore s = some v) :
    goodHost v := by
  unfold normalizeDomainCore at h
  revert h
  split
  · intro h; exact absurd h (by simp)
  · rename_i hres hhost
    intro h
    split_ifs at h with g3
    cases h
    push_neg at g3
    obtain ⟨hne, hdot⟩ := g3
    refine ⟨hne, by simpa using hdot, ?_⟩
    intro c hc
    simp only [asciiLowerStr, List.mem_map] at hc
    obtain ⟨d, hd, rfl⟩ := hc
    have hdh : d ∈ hres := mem_trimStr _ _ hd
    obtain ⟨-, hforb⟩ := urlHostname_spec _ _ hhost
    have : isForbiddenHost d = false := by
      by_contra hcon
      have : hres.any isForbiddenHost = true :=
        List.any_eq_true.mpr ⟨d, hdh, by simpa using hcon⟩
      simp [this] at hforb
    exact ⟨asciiLower_not_forbidden d this, asciiLower_asciiLower d⟩

theorem normalizeDomain_goodHost (s v : Str) (h : normalizeDomain s = some v) :
    goodHost v := by
  unfold normalizeDomain at h
  split_ifs at h
  exact normalizeDomainCore_goodHost _ _ h

theorem goodHost_no_ws (v : Str) (hgood : goodHost v) :
    ∀ c ∈ v, isJsWs c = false := by
  intro c hc
  by_contra hcon
  have h1 := ws_forbidden c (by simpa using hcon)
  have h2 := (hgood.2.2 c hc).1
  rw [h1] at h2
  exact Bool.true_eq_false.mp h2

theorem goodHost_not_mem (v : Str) (hgood : goodHost v) (c : Char)
    (hc : isForbiddenHost c = true) : c ∉ v := by
  intro hmem
  have := (hgood.2.2 c hmem).1
  rw [hc] at this
  exact Bool.true_eq_false.mp this

theorem urlHostname_of_goodHost (v : Str) (hgood : goodHost v) :
    urlHostname (strOf "https://" ++ v) = some v := by
  have hnows := goodHost_no_ws v hgood
  have hfv : v.filter (fun c => ¬(c = '\t' ∨ c = '\n' ∨ c = '\r')) = v := by
    apply List.filter_eq_self.mpr
    intro c hc
    have := hnows c hc
    simp only [decide_eq_true_eq]
    rintro (rfl | rfl | rfl) <;> simp [isJsWs] at this
  have hfilter :
      (strOf "https://" ++ v).filter (fun c => ¬(c = '\t' ∨ c = '\n' ∨ c = '\r')) =
        strOf "https://" ++ v := by
    rw [List.filter_append, hfv]
    rw [show (strOf "https://").filter (fun c => ¬(c = '\t' ∨ c = '\n' ∨ c = '\r')) =
      strOf "https://" by decide]
  have hstarts : strStarts (strOf "https://" ++ v) (strOf "https://") = true :=
    strStarts_append_self _ _
  have hdrop : (strOf "https://" ++ v).drop 8 = v := by
    have : (strOf "https://").length = 8 := by decide
    rw [← this, List.drop_left]
  have htake : takeUntilChars ['/', '?', '#'] v = v := by
    apply takeUntilChars_of_no_stop
    intro c hc
    have h1 : c ≠ '/' := fun heq => goodHost_not_mem v hgood c (heq ▸ by decide) hc
    have h2 : c ≠ '?' := fun heq => goodHost_not_mem v hgood c (heq ▸ by decide) hc
    have h3 : c ≠ '#' := fun heq => goodHost_not_mem v hgood c (heq ▸ by decide) hc
    simp [h1, h2, h3]
  have hafter : afterLastChar '@' v = v := by
    apply afterLastChar_of_no_occ
    intro c hc heq
    exact goodHost_not_mem v hgood c (heq ▸ by decide) hc
  have hsplit : splitFirstChar ':' v = (v, none) := by
    apply splitFirstChar_of_no_occ
    intro c hc heq
    exact goodHost_not_mem v hgood c (heq ▸ by decide) hc
  have hanyf : v.any isForbiddenHost = false := by
    rw [Bool.eq_false_iff]
    intro hcon
    obtain ⟨c, hc, hfc⟩ := List.any_eq_true.mp hcon
    exact goodHost_not_mem v hgood c (by simpa using hfc) hc
  unfold urlHostname
  rw [hfilter, if_pos hstarts, hdrop]
  unfold urlAuthorityHost
  rw [htake, hafter, hsplit]
  simp [hgood.1, hanyf]

theorem normalizeDomain_fixed (v : Str) (hgood : goodHost v) :
    normalizeDomain v = some v := by
  have hnows := goodHost_no_ws v hgood
  have htrim : trimStr v = v := trimStr_of_no_ws v hnows
  have hlower : asciiLowerStr v = v := by
    unfold asciiLowerStr
    calc v.map asciiLower = v.map id := List.map_congr_left (fun c hc => (hgood.2.2 c hc).2)
    _ = v := List.map_id v
  have hs1 : strStarts v (strOf "http://") = false := by
    rw [Bool.eq_false_iff]
    intro hcon
    exact goodHost_not_mem v hgood ':' (by decide)
      (strStarts_mem v _ hcon ':' (by decide))
  have hs2 : strStarts v (strOf "https://") = false := by
    rw [Bool.eq_false_iff]
    intro hcon
    exact goodHost_not_mem v hgood ':' (by decide)
      (strStarts_mem v _ hcon ':' (by decide))
  unfold normalizeDomain
  rw [if_neg hgood.1, htrim, hlower, if_neg hgood.1]
  unfold normalizeDomainCore
  rw [hs1, hs2]
  simp only [Bool.or_self, Bool.false_eq_true, if_false]
  rw [urlHostname_of_goodHost v hgood]
  have hdot : '.' ∈ v := by simpa using hgood.2.1
  simp [htrim, hlower, hgood.1, hdot]

/-! ## Retraction of the field validator -/

theorem colon_not_ws : isJsWs ':' = false := by decide

theorem inCidrClass_not_ws (c : Char) (h : inCidrClass c = true) : isJsWs c = false := by
  simp only [isJsWs, Bool.or_eq_false_iff, decide_eq_false_iff_not]
  refine ⟨⟨⟨⟨⟨?_, ?_⟩, ?_⟩, ?_⟩, ?_⟩, ?_⟩ <;>
    · rintro rfl
      exact absurd h (by decide)

theorem inHexColonClass_not_ws (c : Char) (h : inHexColonClass c = true) :
    isJsWs c = false := by
  simp only [isJsWs, Bool.or_eq_false_iff, decide_eq_false_iff_not]
  refine ⟨⟨⟨⟨⟨?_, ?_⟩, ?_⟩, ?_⟩, ?_⟩, ?_⟩ <;>
    · rintro rfl
      exact absurd h (by decide)

theorem isDigit_inCidrClass (c : Char) (h : c.isDigit = true) : inCidrClass c = true := by
  simp [inCidrClass, h]

theorem isDigit_ne_colon (c : Char) (h : c.isDigit = true) : c ≠ ':' := by
  rintro rfl
  exact absurd h (by decide)

theorem isDigit_ne_dash (c : Char) (h : c.isDigit = true) : c ≠ '-' := by
  rintro rfl
  exact absurd h (by decide)

theorem isDigit_ne_slash (c : Char) (h : c.isDigit = true) : c ≠ '/' := by
  rintro rfl
  exact absurd h (by decide)

theorem isDigit_ne_dot (c : Char) (h : c.isDigit = true) : c ≠ '.' := by
  rintro rfl
  exact absurd h (by decide)

theorem mem_joinDots (l : List Str) (c : Char) (h : c ∈ joinDots l) :
    c = '.' ∨ ∃ p ∈ l, c ∈ p := by
  induction l with
  | nil => simp [joinDots] at h
  | cons p rest ih =>
      cases rest with
      | nil =>
          simp only [joinDots] at h
          exact Or.inr ⟨p, by simp, h⟩
      | cons q t =>
          simp only [joinDots, List.mem_append, List.mem_cons] at h
          rcases h with hp | rfl | hr
          · exact Or.inr ⟨p, by simp, hp⟩
          · exact Or.inl rfl
          · rcases ih hr with hdot | ⟨r, hrmem, hcr⟩
            · exact Or.inl hdot
            · exact Or.inr ⟨r, by simp [hrmem], hcr⟩

theorem joinDots_ne_nil (l : List Str) (hl : l ≠ []) (hp : ∀ p ∈ l, p ≠ []) :
    joinDots l ≠ [] := by
  cases l with
  | nil => exact absurd rfl hl
  | cons p rest =>
      cases rest with
      | nil => exact hp p (by simp)
      | cons q t =>
          simp only [joinDots]
          intro hcon
          have := List.append_eq_nil.mp hcon
          exact hp p (by simp) this.1

theorem joinDots_no_sep (l : List Str) (sep : Char) (hsep : sep ≠ '.')
    (hp : ∀ p ∈ l, ∀ c ∈ p, c ≠ sep) : ∀ c ∈ joinDots l, c ≠ sep := by
  intro c hc
  rcases mem_joinDots l c hc with rfl | ⟨p, hpm, hcp⟩
  · exact fun heq => hsep heq.symm
  · exact hp p hpm c hcp

/-- A canonical port string (printed from its parsed value) revalidates to
itself. -/
theorem port_fixed (p : Nat) (h1 : 1 ≤ p) (h2 : p ≤ 65535) :
    trimStr (natToStr p) = natToStr p ∧ isValidPortValue (natToStr p) = true := by
  have hd := natToStr_digits p
  constructor
  · exact trimStr_of_no_ws _ (fun c hc => isDigit_not_ws c (hd c hc))
  · unfold isValidPortValue
    have hne := natToStr_ne_nil p
    have hlen1 : 1 ≤ (natToStr p).length := by
      cases hx : natToStr p with
      | nil => exact absurd hx hne
      | cons a b => simp
    have hlen5 : (natToStr p).length ≤ 5 :=
      natToStr_length_le p 5 (by omega) (by omega)
    have hall : (natToStr p).all Char.isDigit = true := List.all_eq_true.mpr hd
    have hrt := natToStr_roundtrip p
    simp [hlen1, hlen5, hall, hrt, h1, h2]

theorem port_roundtrip_value (p : Nat) :
    natToStr (strToNat (natToStr p)) = natToStr p := by
  rw [natToStr_roundtrip]

/-- A canonical port range revalidates to itself. -/
theorem portRange_fixed (f t : Nat) (hf1 : 1 ≤ f) (hf2 : f ≤ 65535)
    (ht1 : 1 ≤ t) (ht2 : t ≤ 65535) (hle : f ≤ t) :
    normalizePortRange (natToStr f ++ ':' :: natToStr t) =
      some (natToStr f ++ ':' :: natToStr t) := by
  have hdf := natToStr_digits f
  have hdt := natToStr_digits t
  have hnowsf : ∀ c ∈ natToStr f, isJsWs c = false :=
    fun c hc => isDigit_not_ws c (hdf c hc)
  have hnowst : ∀ c ∈ natToStr t, isJsWs c = false :=
    fun c hc => isDigit_not_ws c (hdt c hc)
  have hfilter : (natToStr f ++ ':' :: natToStr t).filter (fun c => !isJsWs c) =
      natToStr f ++ ':' :: natToStr t := by
    apply List.filter_eq_self.mpr
    intro c hc
    simp only [List.mem_append, List.mem_cons] at hc
    rcases hc with hc | rfl | hc
    · simp [hnowsf c hc]
    · simp [colon_not_ws]
    · simp [hnowst c hc]
  have hmap : (natToStr f ++ ':' :: natToStr t).map (fun c => if c = '-' then ':' else c) =
      natToStr f ++ ':' :: natToStr t := by
    calc (natToStr f ++ ':' :: natToStr t).map (fun c => if c = '-' then ':' else c)
        = (natToStr f ++ ':' :: natToStr t).map id := by
          apply List.map_congr_left
          intro c hc
          simp only [List.mem_append, List.mem_cons] at hc
          have hcne : c ≠ '-' := by
            rcases hc with hc | rfl | hc
            · exact isDigit_ne_dash c (hdf c hc)
            · decide
            · exact isDigit_ne_dash c (hdt c hc)
          simp [hcne]
    _ = _ := List.map_id _
  have hsplit : splitOnChar ':' (natToStr f ++ ':' :: natToStr t) =
      [natToStr f, natToStr t] := by
    rw [splitOnChar_append_sep ':' _ _ (fun c hc => isDigit_ne_colon c (hdf c hc))]
    rw [splitOnChar_no_sep ':' _ (fun c hc => isDigit_ne_colon c (hdt c hc))]
  have hvf := (port_fixed f hf1 hf2).2
  have hvt := (port_fixed t ht1 ht2).2
  unfold normalizePortRange
  rw [hfilter, hmap, hsplit]
  simp only [hvf, hvt, Bool.and_self, if_true]
  rw [natToStr_roundtrip, natToStr_roundtrip]
  rw [if_neg (by omega)]

/-- `normalizeIpOrCidr` output revalidates to itself. -/
theorem normalizeIpOrCidr_fixed (x v : Str) (h : normalizeIpOrCidr x = some v) :
    trimStr v = v ∧ v ≠ [] ∧ normalizeIpOrCidr v = some v := by
  unfold normalizeIpOrCidr at h
  split_ifs at h with g1 g2 g3 g4 g5
  · -- branch 1: v is the trimmed input and matches the CIDR literal shape
    cases h
    have htrim : trimStr (trimStr x) = trimStr x := trimStr_trimStr x
    refine ⟨htrim, g1, ?_⟩
    unfold normalizeIpOrCidr
    rw [htrim, if_neg g1, if_pos g2]
  · -- branch 2: dotted IPv4 rewritten to /32
    cases h
    set ps := (splitOnChar '.' (trimStr x)).map strToNat with hps
    simp only [Bool.and_eq_true, decide_eq_true_eq, List.all_eq_true] at g4
    obtain ⟨hlen4, hle255⟩ := g4
    have hpartsne : ∀ q ∈ ps.map natToStr, q ≠ [] := by
      intro q hq
      obtain ⟨p, -, rfl⟩ := List.mem_map.mp hq
      exact natToStr_ne_nil p
    have hpartsdig : ∀ q ∈ ps.map natToStr, ∀ c ∈ q, c.isDigit = true := by
      intro q hq
      obtain ⟨p, -, rfl⟩ := List.mem_map.mp hq
      exact natToStr_digits p
    have hmemchar : ∀ c ∈ joinDots (ps.map natToStr), c = '.' ∨ c.isDigit = true := by
      intro c hc
      rcases mem_joinDots _ c hc with rfl | ⟨q, hqm, hcq⟩
      · exact Or.inl rfl
      · exact Or.inr (hpartsdig q hqm c hcq)
    have hnows : ∀ c ∈ joinDots (ps.map natToStr) ++ strOf "/32", isJsWs c = false := by
      intro c hc
      rcases List.mem_append.mp hc with hc | hc
      · rcases hmemchar c hc with rfl | hd
        · decide
        · exact isDigit_not_ws c hd
      · fin_cases hc <;> decide
    have htrim := trimStr_of_no_ws _ hnows
    have hne : joinDots (ps.map natToStr) ++ strOf "/32" ≠ [] := by
      intro hcon
      have := List.append_eq_nil.mp hcon
      exact absurd this.2 (by decide)
    refine ⟨htrim, hne, ?_⟩
    have hnoslash : ∀ c ∈ joinDots (ps.map natToStr), c ≠ '/' := by
      intro c hc
      rcases hmemchar c hc with rfl | hd
      · decide
      · exact isDigit_ne_slash c hd
    have hsplit : splitOnChar '/' (joinDots (ps.map natToStr) ++ strOf "/32") =
        [joinDots (ps.map natToStr), strOf "32"] := by
      rw [show (strOf "/32") = '/' :: strOf "32" from rfl]
      rw [splitOnChar_append_sep '/' _ _ hnoslash]
      rw [splitOnChar_no_sep '/' _ (by decide)]
    have hjne : joinDots (ps.map natToStr) ≠ [] := by
      apply joinDots_ne_nil
      · intro hcon
        have hps0 : ps = [] := by simpa using hcon
        rw [hps0] at hlen4
        simp at hlen4
      · exact hpartsne
    have hcidr : cidrLike (joinDots (ps.map natToStr) ++ strOf "/32") = true := by
      unfold cidrLike
      rw [hsplit]
      have hall : (joinDots (ps.map natToStr)).all inCidrClass = true := by
        apply List.all_eq_true.mpr
        intro c hc
        rcases hmemchar c hc with rfl | hd
        · decide
        · exact isDigit_inCidrClass c hd
      have hlen32a : (1 : Nat) ≤ (strOf "32").length := by decide
      have hlen32b : (strOf "32").length ≤ 3 := by decide
      have hdig32 : (strOf "32").all Char.isDigit = true := by decide
      simp [hjne, hall, hlen32a, hlen32b, hdig32]
    unfold normalizeIpOrCidr
    rw [htrim, if_neg hne, if_pos hcidr]
  · -- branch 3: IPv6 literal rewritten to /128
    cases h
    simp only [Bool.and_eq_true, decide_eq_true_eq, List.all_eq_true] at g5
    obtain ⟨⟨-, hhex⟩, -⟩ := g5
    have hnows : ∀ c ∈ trimStr x ++ strOf "/128", isJsWs c = false := by
      intro c hc
      rcases List.mem_append.mp hc with hc | hc
      · exact inHexColonClass_not_ws c (hhex c hc)
      · fin_cases hc <;> decide
    have htrim := trimStr_of_no_ws _ hnows
    have hne : trimStr x ++ strOf "/128" ≠ [] := by
      intro hcon
      have := List.append_eq_nil.mp hcon
      exact absurd this.2 (by decide)
    refine ⟨htrim, hne, ?_⟩
    have hnoslash : ∀ c ∈ trimStr x, c ≠ '/' := by
      intro c hc
      have := hhex c hc
      rintro rfl
      exact absurd this (by decide)
    have hsplit : splitOnChar '/' (trimStr x ++ strOf "/128") =
        [trimStr x, strOf "128"] := by
      rw [show (strOf "/128") = '/' :: strOf "128" from rfl]
      rw [splitOnChar_append_sep '/' _ _ hnoslash]
      rw [splitOnChar_no_sep '/' _ (by decide)]
    have hcidr : cidrLike (trimStr x ++ strOf "/128") = true := by
      unfold cidrLike
      rw [hsplit]
      have hall : (trimStr x).all inCidrClass = true := by
        apply List.all_eq_true.mpr
        intro c hc
        have hx := hhex c hc
        revert hx
        unfold inHexColonClass inCidrClass
        intro hx
        rcases Bool.or_eq_true_iff.mp hx with hx | hx
        · rcases Bool.or_eq_true_iff.mp hx with hx | hx
          · rcases Bool.or_eq_true_iff.mp hx with hx | hx
            · simp [hx]
            · simp [hx]
          · simp [hx]
        · simp [hx]
      have hlen128a : (1 : Nat) ≤ (strOf "128").length := by decide
      have hlen128b : (strOf "128").length ≤ 3 := by decide
      have hdig128 : (strOf "128").all Char.isDigit = true := by decide
      simp [g1, hall, hlen128a, hlen128b, hdig128]
    unfold normalizeIpOrCidr
    rw [htrim, if_neg hne, if_pos hcidr]

theorem normalizePortRange_fixed (x v : Str) (h : normalizePortRange x = some v) :
    trimStr v = v ∧ v ≠ [] ∧ normalizePortRange v = some v := by
  unfold normalizePortRange at h
  revert h
  split
  · rename_i lo hi heq
    intro h
    split_ifs at h with g1 g2
    cases h
    simp only [Bool.and_eq_true] at g1
    obtain ⟨glo, ghi⟩ := g1
    simp only [isValidPortValue, Bool.and_eq_true, decide_eq_true_eq] at glo ghi
    obtain ⟨-, hlo1, hlo2⟩ := glo
    obtain ⟨-, hhi1, hhi2⟩ := ghi
    have hle : strToNat lo ≤ strToNat hi := by omega
    have hdf := natToStr_digits (strToNat lo)
    have hdt := natToStr_digits (strToNat hi)
    refine ⟨?_, ?_, ?_⟩
    · apply trimStr_of_no_ws
      intro c hc
      simp only [List.mem_append, List.mem_cons] at hc
      rcases hc with hc | rfl | hc
      · exact isDigit_not_ws c (hdf c hc)
      · exact colon_not_ws
      · exact isDigit_not_ws c (hdt c hc)
    · intro hcon
      exact absurd (List.append_eq_nil.mp hcon).2 (by simp)
    · exact portRange_fixed (strToNat lo) (strToNat hi) hlo1 hlo2 hhi1 hhi2 hle
  · intro h
    exact absurd h (by simp)

/-- C9 counterexample: the validator is not a retraction on kind
`domainSuffix`.  The raw value `*.*.example.com` is accepted with normalized
result `*.example.com`, but re-validating `*.example.com` strips the wildcard
again and returns `example.com`, not the value itself. -/
theorem fieldValidator_not_retraction :
    normalizeRuleFieldValue (fun _ => true) .domainSuffix (strOf "*.*.example.com") [] =
        some (strOf "*.example.com") ∧
      normalizeRuleFieldValue (fun _ => true) .domainSuffix (strOf "*.example.com") [] =
        some (strOf "example.com") ∧
      strOf "example.com" ≠ strOf "*.example.com" := by
  refine ⟨by decide, by decide, by decide⟩

/-- C9 (amended): field validation is a retraction for every field kind and
accepted value, except a `domainSuffix` result that itself begins with the
wildcard prefix `*.` (which only arises from a doubly wildcarded raw input):
when the validator accepts `raw` with normalized result `v`, re-validating `v`
under the same kind succeeds and returns `v` unchanged. -/
theorem normalizeRuleFieldValue_retraction (regexOk : Str → Bool)
    (field : RuleFieldKey) (raw : Str) (ids : List Str) (v : Str)
    (h : normalizeRuleFieldValue regexOk field raw ids = some v)
    (hsuf : field = RuleFieldKey.domainSuffix → strStarts v (strOf "*.") = false) :
    normalizeRuleFieldValue regexOk field v ids = some v := by
  cases field <;> simp only [normalizeRuleFieldValue] at h ⊢
  case domain =>
    split_ifs at h with g1
    have hgood := normalizeDomain_goodHost _ _ h
    rw [trimStr_of_no_ws v (goodHost_no_ws v hgood), if_neg hgood.1]
    exact normalizeDomain_fixed v hgood
  case domainSuffix =>
    split_ifs at h with g1
    have hgood := normalizeDomain_goodHost _ _ h
    rw [trimStr_of_no_ws v (goodHost_no_ws v hgood), if_neg hgood.1]
    rw [show stripWildcardDot v = v by
      unfold stripWildcardDot
      rw [if_neg (by simp [hsuf rfl])]]
    exact normalizeDomain_fixed v hgood
  case domainKeyword =>
    split_ifs at h with g1
    cases h
    rw [trimStr_trimStr, if_neg g1]
  case domainRegex =>
    split_ifs at h with g1 g2
    cases h
    rw [trimStr_trimStr, if_neg g1, if_pos g2]
  case ruleSet =>
    split_ifs at h with g1 g2
    cases h
    rw [trimStr_trimStr, if_neg g1, if_pos g2]
  case ipCidr =>
    split_ifs at h with g1
    obtain ⟨ht, hne, hfix⟩ := normalizeIpOrCidr_fixed _ _ h
    rw [ht, if_neg hne]
    exact hfix
  case sourceIpCidr =>
    split_ifs at h with g1
    obtain ⟨ht, hne, hfix⟩ := normalizeIpOrCidr_fixed _ _ h
    rw [ht, if_neg hne]
    exact hfix
  case port =>
    split_ifs at h with g1 g2
    cases h
    simp only [isValidPortValue, Bool.and_eq_true, decide_eq_true_eq] at g2
    obtain ⟨-, h1, h2⟩ := g2
    obtain ⟨ht, hv⟩ := port_fixed (strToNat (trimStr raw)) h1 h2
    rw [ht, if_neg (natToStr_ne_nil _), if_pos hv, natToStr_roundtrip]
  case sourcePort =>
    split_ifs at h with g1 g2
    cases h
    simp only [isValidPortValue, Bool.and_eq_true, decide_eq_true_eq] at g2
    obtain ⟨-, h1, h2⟩ := g2
    obtain ⟨ht, hv⟩ := port_fixed (strToNat (trimStr raw)) h1 h2
    rw [ht, if_neg (natToStr_ne_nil _), if_pos hv, natToStr_roundtrip]
  case portRange =>
    split_ifs at h with g1
    obtain ⟨ht, hne, hfix⟩ := normalizePortRange_fixed _ _ h
    rw [ht, if_neg hne]
    exact hfix
  case sourcePortRange =>
    split_ifs at h with g1
    obtain ⟨ht, hne, hfix⟩ := normalizePortRange_fixed _ _ h
    rw [ht, if_neg hne]
    exact hfix

/-- C9 witness: re-validating the canonical form of a port with leading
zeros. -/
theorem normalizeRuleFieldValue_retraction_witness :
    normalizeRuleFieldValue (fun _ => true) .port (strOf "443") [] =
      some (strOf "443") :=
  normalizeRuleFieldValue_retraction (fun _ => true) .port (strOf "0443") []
    (strOf "443") (by decide) (by decide)

/-! ## Rule data model and Diff Engine (RulesTab.tsx) -/

/-- The three outbound classes of the edit model (`RouteEditClass`). -/
inductive RouteEditClass where
  | proxy | direct | block
  deriving DecidableEq, Repr

/-- `RulesUpdateConfig` (types/homeproxy.ts): one string list per criterion. -/
structure RulesUpdateConfig where
  ruleSet : List Str
  domain : List Str
  domainSuffix : List Str
  domainKeyword : List Str
  domainRegex : List Str
  ipCidr : List Str
  sourceIpCidr : List Str
  sourcePort : List Str
  sourcePortRange : List Str
  port : List Str
  portRange : List Str
  deriving DecidableEq, Repr

/-- Field projection `config[key]`. -/
def getField (c : RulesUpdateConfig) : RuleFieldKey → List Str
  | .ruleSet => c.ruleSet
  | .domain => c.domain
  | .domainSuffix => c.domainSuffix
  | .domainKeyword => c.domainKeyword
  | .domainRegex => c.domainRegex
  | .ipCidr => c.ipCidr
  | .sourceIpCidr => c.sourceIpCidr
  | .sourcePort => c.sourcePort
  | .sourcePortRange => c.sourcePortRange
  | .port => c.port
  | .portRange => c.portRange

/-- Field update `{...config, [key]: l}`. -/
def setField (c : RulesUpdateConfig) (k : RuleFieldKey) (l : List Str) : RulesUpdateConfig :=
  match k with
  | .ruleSet => { c with ruleSet := l }
  | .domain => { c with domain := l }
  | .domainSuffix => { c with domainSuffix := l }
  | .domainKeyword => { c with domainKeyword := l }
  | .domainRegex => { c with domainRegex := l }
  | .ipCidr => { c with ipCidr := l }
  | .sourceIpCidr => { c with sourceIpCidr := l }
  | .sourcePort => { c with sourcePort := l }
  | .sourcePortRange => { c with sourcePortRange := l }
  | .port => { c with port := l }
  | .portRange => { c with portRange := l }

/-- `EMPTY_CONFIG_TEMPLATE` (RulesTab.tsx line 252). -/
def EMPTY_CONFIG_TEMPLATE : RulesUpdateConfig :=
  { ruleSet := [], domain := [], domainSuffix := [], domainKeyword := [],
    domainRegex := [], ipCidr := [], sourceIpCidr := [], sourcePort := [],
    sourcePortRange := [], port := [], portRange := [] }

/-- A materialized draft of an existing rule (`RuleDraft`, RulesTab.tsx
lines 89-98).  The JS `number` priority is modeled as `Int`. -/
structure RuleDraft where
  id : Str
  tag : Str
  name : Str
  enabled : Bool
  priority : Int
  config : RulesUpdateConfig
  outboundClass : RouteEditClass
  outboundNode : Str
  deriving DecidableEq, Repr

/-- Embedding of `listDiffCount` (RulesTab.tsx lines 346-357): the number of
values present in exactly one of the two lists, counted as sets. -/
def listDiffCount (left right : List Str) : Nat :=
  left.dedup.countP (fun x => !(right.contains x)) +
    right.dedup.countP (fun x => !(left.contains x))

/-- Embedding of `configsEqual` (RulesTab.tsx lines 359-361): element-wise
(order-sensitive) equality of every criterion list. -/
def configsEqual (left right : RulesUpdateConfig) : Bool :=
  RULE_FIELD_ORDER.all (fun k => decide (getField left k = getField right k))

/-- Embedding of `countRuleDraftBaseChanges` (RulesTab.tsx lines 363-378). -/
def countRuleDraftBaseChanges (base draft : RuleDraft) : Nat :=
  (if base.name = draft.name then 0 else 1) +
    (if base.enabled = draft.enabled then 0 else 1) +
    (RULE_FIELD_ORDER.map
      (fun k => listDiffCount (getField base.config k) (getField draft.config k))).sum +
    (if base.outboundClass = draft.outboundClass ∧ base.outboundNode = draft.outboundNode
     then 0 else 1)

/-- Embedding of `countRuleDraftChanges` (RulesTab.tsx lines 380-386). -/
def countRuleDraftChanges (base draft : RuleDraft) (draftPriority : Int) : Nat :=
  countRuleDraftBaseChanges base draft +
    (if base.priority = draftPriority then 0 else 1)

/-- Per-rule contribution to `changedRuleCount` (RulesTab.tsx lines
1643-1655): the effective draft priority is the visual-order position only
when the rule was actually dragged, and the base priority otherwise. -/
def ruleDiffContribution (base draft : RuleDraft) (dragged : Bool)
    (prio? : Option Int) : Nat :=
  countRuleDraftChanges base draft
    (if dragged then prio?.getD draft.priority else base.priority)

/-- The outbound object sent inside a rule patch. -/
structure RulesUpdateOutboundW where
  cls : RouteEditClass
  node : Option Str
  deriving DecidableEq, Repr

/-- `RuleEditPatch` (types/homeproxy.ts): `name`, `enabled` and `priority`
are optional (spread in only when changed), `config` and `outbound` are
mandatory fields of the emitted object. -/
structure RuleEditPatch where
  id : Str
  tag : Str
  name : Option Str
  enabled : Option Bool
  priority : Option Int
  config : RulesUpdateConfig
  outbound : RulesUpdateOutboundW
  deriving DecidableEq, Repr

/-- The `hasNameChange` test of `changedRulePatches` (compares trimmed
names). -/
def hasNameChange (base draft : RuleDraft) : Bool :=
  decide (trimStr base.name ≠ trimStr draft.name)

/-- The `hasEnabledChange` test of `changedRulePatches`. -/
def hasEnabledChange (base draft : RuleDraft) : Bool :=
  decide (base.enabled ≠ draft.enabled)

/-- The `hasPriorityChange` test of `changedRulePatches`: the rule was
actually dragged and its resolved visual position differs from the base
priority. -/
def hasPriorityChange (base draft : RuleDraft) (dragged : Bool)
    (prio? : Option Int) : Bool :=
  dragged && decide (base.priority ≠ prio?.getD draft.priority)

/-- Per-rule body of `changedRulePatches` (RulesTab.tsx lines 1606-1641):
`none` when every field agrees (the `continue`), otherwise the emitted patch,
which always carries the full `config` and `outbound`. -/
def changedRulePatch? (base draft : RuleDraft) (dragged : Bool)
    (prio? : Option Int) : Option RuleEditPatch :=
  if hasNameChange base draft = false ∧ hasEnabledChange base draft = false ∧
      hasPriorityChange base draft dragged prio? = false ∧
      configsEqual base.config draft.config = true ∧
      base.outboundClass = draft.outboundClass ∧
      base.outboundNode = draft.outboundNode then
    none
  else
    some
      { id := draft.id
        tag := draft.tag
        name := if hasNameChange base draft then some (trimStr draft.name) else none
        enabled := if hasEnabledChange base draft then some draft.enabled else none
        priority :=
          if hasPriorityChange base draft dragged prio? then
            some (prio?.getD draft.priority)
          else none
        config := draft.config
        outbound :=
          { cls := draft.outboundClass
            node :=
              if draft.outboundClass = RouteEditClass.proxy then
                some (trimStr draft.outboundNode)
              else none } }

theorem ite_zero_one_eq_zero_iff (p : Prop) [Decidable p] :
    ((if p then 0 else 1) = 0) ↔ p := by
  split_ifs with h <;> simp [h]

/-- Decomposition of the per-rule change count into its five comparisons. -/
theorem ruleDiffContribution_zero_iff (base draft : RuleDraft) (dragged : Bool)
    (prio? : Option Int) :
    ruleDiffContribution base draft dragged prio? = 0 ↔
      base.name = draft.name ∧ base.enabled = draft.enabled ∧
        (∀ k ∈ RULE_FIELD_ORDER,
          listDiffCount (getField base.config k) (getField draft.config k) = 0) ∧
        (base.outboundClass = draft.outboundClass ∧
          base.outboundNode = draft.outboundNode) ∧
        (dragged = true → base.priority = prio?.getD draft.priority) := by
  unfold ruleDiffContribution countRuleDraftChanges countRuleDraftBaseChanges
  rw [Nat.add_eq_zero, Nat.add_eq_zero, Nat.add_eq_zero, Nat.add_eq_zero]
  rw [ite_zero_one_eq_zero_iff, ite_zero_one_eq_zero_iff, ite_zero_one_eq_zero_iff,
    ite_zero_one_eq_zero_iff]
  rw [List.sum_eq_zero_iff]
  constructor
  · rintro ⟨⟨⟨⟨hn, he⟩, hs⟩, ho⟩, hp⟩
    refine ⟨hn, he, ?_, ho, ?_⟩
    · intro k hk
      exact hs _ (List.mem_map_of_mem _ hk)
    · intro hdr
      rw [hdr] at hp
      simpa using hp
  · rintro ⟨hn, he, hs, ho, hp⟩
    refine ⟨⟨⟨⟨hn, he⟩, ?_⟩, ho⟩, ?_⟩
    · intro x hx
      obtain ⟨k, hk, rfl⟩ := List.mem_map.mp hx
      exact hs k hk
    · cases hdr : dragged with
      | false => simp [hdr]
      | true => simp [hdr, hp hdr]

/-- Decomposition of the patch-emission test. -/
theorem changedRulePatch_none_iff (base draft : RuleDraft) (dragged : Bool)
    (prio? : Option Int) :
    changedRulePatch? base draft dragged prio? = none ↔
      trimStr base.name = trimStr draft.name ∧ base.enabled = draft.enabled ∧
        configsEqual base.config draft.config = true ∧
        (base.outboundClass = draft.outboundClass ∧
          base.outboundNode = draft.outboundNode) ∧
        (dragged = true → base.priority = prio?.getD draft.priority) := by
  unfold changedRulePatch?
  split_ifs with h
  · simp only [true_iff]
    obtain ⟨h1, h2, h3, h4, h5, h6⟩ := h
    refine ⟨by simpa [hasNameChange] using h1, by simpa [hasEnabledChange] using h2,
      h4, ⟨h5, h6⟩, ?_⟩
    intro hdr
    rw [hasPriorityChange, hdr] at h3
    simpa using h3
  · constructor
    · intro hcon
      exact absurd hcon (by simp)
    · rintro ⟨h1, h2, h3, ⟨h4, h5⟩, h6⟩
      exfalso
      apply h
      refine ⟨?_, ?_, ?_, h3, h4, h5⟩
      · simp [hasNameChange, h1]
      · simp [hasEnabledChange, h2]
      · unfold hasPriorityChange
        cases hdr : dragged with
        | false => simp
        | true => simp [h6 hdr]

def c1Base : RuleDraft :=
  { id := strOf "rule_1", tag := strOf "cfg0a", name := strOf "Video ",
    enabled := true, priority := 0, config := EMPTY_CONFIG_TEMPLATE,
    outboundClass := .direct, outboundNode := [] }

def c1Draft : RuleDraft := { c1Base with name := strOf "Video" }

/-- C1 counterexample: a draft whose name differs from its base only by
trailing whitespace has a change count of 1 (raw name comparison), yet the
updates list emits no patch for it (trimmed name comparison): the claimed
equivalence fails. -/
theorem changeCount_zero_iff_no_patch_cex :
    ¬(ruleDiffContribution c1Base c1Draft false none = 0 ↔
        changedRulePatch? c1Base c1Draft false none = none) := by decide

/-- C1 (amended): for a rule with a base record and a materialized draft not
marked pending-delete, the scalar change count is zero exactly when no update
patch is emitted for it, provided the two comparisons the code uses agree on
the given data: raw name equality coincides with trimmed name equality, and
each criterion list pair is element-wise equal exactly when its symmetric
set difference is empty (whitespace-only name edits and permutations or
duplicate collapses of a criterion list break the equivalence). -/
theorem changeCount_zero_iff_no_patch (base draft : RuleDraft) (dragged : Bool)
    (prio? : Option Int)
    (hName : (base.name = draft.name) ↔ (trimStr base.name = trimStr draft.name))
    (hCfg : ∀ k ∈ RULE_FIELD_ORDER,
      ((getField base.config k = getField draft.config k) ↔
        listDiffCount (getField base.config k) (getField draft.config k) = 0)) :
    (ruleDiffContribution base draft dragged prio? = 0 ↔
      changedRulePatch? base draft dragged prio? = none) := by
  rw [ruleDiffContribution_zero_iff, changedRulePatch_none_iff]
  have hcfg_iff :
      (∀ k ∈ RULE_FIELD_ORDER,
        listDiffCount (getField base.config k) (getField draft.config k) = 0) ↔
        configsEqual base.config draft.config = true := by
    unfold configsEqual
    rw [List.all_eq_true]
    constructor
    · intro hz k hk
      exact decide_eq_true ((hCfg k hk).mpr (hz k hk))
    · intro hz k hk
      exact (hCfg k hk).mp (of_decide_eq_true (hz k hk))
  rw [hName, hcfg_iff]

/-- C1 witness: the equivalence applied to an unchanged rule. -/
theorem changeCount_zero_iff_no_patch_witness :
    ruleDiffContribution c1Base c1Base false none = 0 ↔
      changedRulePatch? c1Base c1Base false none = none :=
  changeCount_zero_iff_no_patch c1Base c1Base false none (by decide) (by decide)

def c5Base : RuleDraft :=
  { id := strOf "rule_2", tag := strOf "cfg0b", name := strOf "Media",
    enabled := true, priority := 1,
    config := { EMPTY_CONFIG_TEMPLATE with domain := [strOf "a.com"] },
    outboundClass := .direct, outboundNode := [] }

def c5Draft : RuleDraft := { c5Base with enabled := false }

/-- C5 counterexample: a rule whose only change is the enabled flag still
gets a patch that carries the full (unchanged) match-criteria config and the
full (unchanged) outbound — unchanged fields are not absent. -/
theorem patch_minimal_fields_cex :
    (changedRulePatch? c5Base c5Draft false none).map RuleEditPatch.config =
        some c5Draft.config ∧
      configsEqual c5Base.config c5Draft.config = true ∧
      (changedRulePatch? c5Base c5Draft false none).map RuleEditPatch.outbound =
        some { cls := RouteEditClass.direct, node := none } ∧
      c5Base.outboundClass = c5Draft.outboundClass ∧
      c5Base.outboundNode = c5Draft.outboundNode := by decide

/-- C5 (amended): in every emitted rule patch the `name`, `enabled` and
`priority` fields are present exactly when the corresponding value changed
(name compared after trimming; priority only for a rule that was actually
moved), while the match-criteria `config` and the `outbound` are always
present in full, whether or not they changed. -/
theorem patch_field_presence (base draft : RuleDraft) (dragged : Bool)
    (prio? : Option Int) (p : RuleEditPatch)
    (h : changedRulePatch? base draft dragged prio? = some p) :
    (p.name.isSome = true ↔ trimStr base.name ≠ trimStr draft.name) ∧
      (p.enabled.isSome = true ↔ base.enabled ≠ draft.enabled) ∧
      (p.priority.isSome = true ↔
        dragged = true ∧ base.priority ≠ prio?.getD draft.priority) ∧
      p.name = (if hasNameChange base draft then some (trimStr draft.name) else none) ∧
      p.enabled = (if hasEnabledChange base draft then some draft.enabled else none) ∧
      p.config = draft.config ∧
      p.outbound.cls = draft.outboundClass ∧
      p.outbound.node =
        (if draft.outboundClass = RouteEditClass.proxy then
          some (trimStr draft.outboundNode)
        else none) := by
  unfold changedRulePatch? at h
  split at h
  · exact absurd h (by simp)
  cases h
  refine ⟨?_, ?_, ?_, rfl, rfl, rfl, rfl, rfl⟩
  · by_cases hn : trimStr base.name = trimStr draft.name <;> simp [hasNameChange, hn]
  · by_cases he : base.enabled = draft.enabled <;> simp [hasEnabledChange, he]
  · by_cases hd : dragged = true
    · by_cases hp : base.priority = prio?.getD draft.priority <;>
        simp [hasPriorityChange, hd, hp]
    · simp only [Bool.not_eq_true] at hd
      simp [hasPriorityChange, hd]

def c5wBase : RuleDraft :=
  { id := strOf "rule_3", tag := strOf "cfg0c", name := strOf "Games",
    enabled := true, priority := 2, config := EMPTY_CONFIG_TEMPLATE,
    outboundClass := .direct, outboundNode := [] }

def c5wDraft : RuleDraft := { c5wBase with name := strOf "Game" }

def c5wPatch : RuleEditPatch :=
  { id := strOf "rule_3", tag := strOf "cfg0c", name := some (strOf "Game"),
    enabled := none, priority := none, config := EMPTY_CONFIG_TEMPLATE,
    outbound := { cls := RouteEditClass.direct, node := none } }

/-- C5 witness: field presence on a concrete name-only edit. -/
theorem patch_field_presence_witness :
    c5wPatch.config = c5wDraft.config ∧
      c5wPatch.name = some (trimStr c5wDraft.name) ∧
      c5wPatch.enabled = none := by
  have h : changedRulePatch? c5wBase c5wDraft false none = some c5wPatch := by decide
  have hfields := patch_field_presence c5wBase c5wDraft false none c5wPatch h
  refine ⟨hfields.2.2.2.2.2.1, ?_, ?_⟩
  · rw [hfields.2.2.2.1]
    simp [hasNameChange]
    decide
  · rw [hfields.2.2.2.2.1]
    simp [hasEnabledChange]
    decide

/-! ## Ordering of rule updates before apply (part_000 lines 803-829) -/

/-- Code-point lexicographic comparison of identifier strings, the model of
`String.prototype.localeCompare` for the ASCII section ids the backend
issues. -/
def strLe : Str → Str → Bool
  | [], _ => true
  | _ :: _, [] => false
  | c :: cs, d :: ds =>
      decide (c.toNat < d.toNat) || (decide (c.toNat = d.toNat) && strLe cs ds)

theorem strLe_total (a b : Str) : strLe a b || strLe b a = true := by
  induction a generalizing b with
  | nil => simp [strLe]
  | cons c cs ih =>
      cases b with
      | nil => simp [strLe]
      | cons d ds =>
          simp only [strLe, Bool.or_eq_true, decide_eq_true_eq, Bool.and_eq_true]
          rcases Nat.lt_trichotomy c.toNat d.toNat with h | h | h
          · exact Or.inl (Or.inl h)
          · have := ih ds
            simp only [Bool.or_eq_true] at this
            rcases this with h2 | h2
            · exact Or.inl (Or.inr ⟨h, h2⟩)
            · exact Or.inr (Or.inr ⟨h.symm, by simpa using h2⟩)
          · exact Or.inr (Or.inl h)

theorem strLe_trans (a b c : Str) (hab : strLe a b = true) (hbc : strLe b c = true) :
    strLe a c = true := by
  induction a generalizing b c with
  | nil => simp [strLe]
  | cons x xs ih =>
      cases b with
      | nil => simp [strLe] at hab
      | cons y ys =>
          cases c with
          | nil => simp [strLe] at hbc
          | cons z zs =>
              simp only [strLe, Bool.or_eq_true, decide_eq_true_eq,
                Bool.and_eq_true] at hab hbc ⊢
              rcases hab with hab | ⟨hab1, hab2⟩
              · rcases hbc with hbc | ⟨hbc1, hbc2⟩
                · exact Or.inl (by omega)
                · exact Or.inl (by omega)
              · rcases hbc with hbc | ⟨hbc1, hbc2⟩
                · exact Or.inl (by omega)
                · exact Or.inr ⟨by omega, ih ys zs hab2 hbc2⟩

/-- `Number.MAX_SAFE_INTEGER`, the priority assigned to updates that carry
none. -/
def maxSafeInteger : Int := 9007199254740991

/-- The sort key of the comparator in `handleApplyRulesWorkspace`:
`patch.priority ?? Number.MAX_SAFE_INTEGER`. -/
def priVal (u : RuleEditPatch) : Int := u.priority.getD maxSafeInteger

/-- Boolean form of the comparator `(left, right) => leftPriority -
rightPriority || left.id.localeCompare(right.id)` being non-positive. -/
def ruleUpdateLe (a b : RuleEditPatch) : Bool :=
  decide (priVal a < priVal b) || (decide (priVal a = priVal b) && strLe a.id b.id)

/-- Embedding of `orderedRuleUpdates` (part_000 lines 803-810): the stable
sort of the pending rule updates by the comparator above. -/
def orderedRuleUpdates (updates : List RuleEditPatch) : List RuleEditPatch :=
  updates.mergeSort ruleUpdateLe

theorem ruleUpdateLe_trans : ∀ a b c : RuleEditPatch,
    ruleUpdateLe a b = true → ruleUpdateLe b c = true → ruleUpdateLe a c = true := by
  intro a b c hab hbc
  simp only [ruleUpdateLe, Bool.or_eq_true, decide_eq_true_eq,
    Bool.and_eq_true] at hab hbc ⊢
  rcases hab with hab | ⟨hab1, hab2⟩
  · rcases hbc with hbc | ⟨hbc1, hbc2⟩
    · exact Or.inl (by omega)
    · exact Or.inl (by omega)
  · rcases hbc with hbc | ⟨hbc1, hbc2⟩
    · exact Or.inl (by omega)
    · exact Or.inr ⟨by omega, strLe_trans _ _ _ hab2 hbc2⟩

theorem ruleUpdateLe_total : ∀ a b : RuleEditPatch,
    (ruleUpdateLe a b || ruleUpdateLe b a) = true := by
  intro a b
  simp only [ruleUpdateLe, Bool.or_eq_true, decide_eq_true_eq, Bool.and_eq_true]
  rcases Int.lt_trichotomy (priVal a) (priVal b) with h | h | h
  · exact Or.inl (Or.inl h)
  · have := strLe_total a.id b.id
    simp only [Bool.or_eq_true] at this
    rcases this with h2 | h2
    · exact Or.inl (Or.inr ⟨h, h2⟩)
    · exact Or.inr (Or.inr ⟨h.symm, by simpa using h2⟩)
  · exact Or.inr (Or.inl h)

/-- The ordering the claim describes: target priority ascending, ties broken
by id lexicographically, and updates carrying no priority after all updates
that carry one. -/
def ruleUpdateClaimLe (a b : RuleEditPatch) : Prop :=
  match a.priority, b.priority with
  | some x, some y => x < y ∨ (x = y ∧ strLe a.id b.id = true)
  | some _, none => True
  | none, some _ => False
  | none, none => strLe a.id b.id = true

/-- C6: the rule-update batch is issued sorted by (priority ascending, id
lexicographic), with priority-less updates last, and is a permutation of the
pending updates.  The hypothesis reflects that every priority the workspace
produces is a list position, far below `Number.MAX_SAFE_INTEGER`. -/
theorem orderedRuleUpdates_sorted (updates : List RuleEditPatch)
    (hbound : ∀ u ∈ updates, ∀ x : Int, u.priority = some x → x < maxSafeInteger) :
    List.Pairwise ruleUpdateClaimLe (orderedRuleUpdates updates) ∧
      (orderedRuleUpdates updates).Perm updates := by
  have hperm : (orderedRuleUpdates updates).Perm updates :=
    List.mergeSort_perm updates ruleUpdateLe
  refine ⟨?_, hperm⟩
  have hsorted := List.sorted_mergeSort ruleUpdateLe_trans ruleUpdateLe_total updates
  apply List.Pairwise.imp_of_mem ?_ hsorted
  intro a b ha hb hle
  have hamem : a ∈ updates := hperm.mem_iff.mp ha
  have hbmem : b ∈ updates := hperm.mem_iff.mp hb
  simp only [ruleUpdateLe, Bool.or_eq_true, decide_eq_true_eq, Bool.and_eq_true] at hle
  unfold ruleUpdateClaimLe
  cases hpa : a.priority with
  | some x =>
      cases hpb : b.priority with
      | some y =>
          have hax := hbound a hamem x hpa
          have hby := hbound b hbmem y hpb
          simp only [priVal, hpa, hpb, Option.getD_some] at hle
          exact hle
      | none => trivial
  | none =>
      cases hpb : b.priority with
      | some y =>
          have hby := hbound b hbmem y hpb
          simp only [priVal, hpa, hpb, Option.getD_some, Option.getD_none] at hle
          rcases hle with hle | ⟨hle, -⟩
          · omega
          · omega
      | none =>
          simp only [priVal, hpa, hpb, Option.getD_none] at hle
          rcases hle with hle | ⟨-, hle⟩
          · omega
          · exact hle

def c6u1 : RuleEditPatch :=
  { id := strOf "cfg02", tag := strOf "cfg02", name := none, enabled := none,
    priority := some 1, config := EMPTY_CONFIG_TEMPLATE,
    outbound := { cls := RouteEditClass.direct, node := none } }

def c6u2 : RuleEditPatch :=
  { id := strOf "cfg01", tag := strOf "cfg01", name := none, enabled := none,
    priority := some 0, config := EMPTY_CONFIG_TEMPLATE,
    outbound := { cls := RouteEditClass.direct, node := none } }

def c6u3 : RuleEditPatch :=
  { id := strOf "cfg03", tag := strOf "cfg03", name := none, enabled := none,
    priority := none, config := EMPTY_CONFIG_TEMPLATE,
    outbound := { cls := RouteEditClass.direct, node := none } }

/-- C6 witness: sortedness and permutation on a concrete update batch. -/
theorem orderedRuleUpdates_sorted_witness :
    List.Pairwise ruleUpdateClaimLe (orderedRuleUpdates [c6u1, c6u2, c6u3]) ∧
      (orderedRuleUpdates [c6u1, c6u2, c6u3]).Perm [c6u1, c6u2, c6u3] :=
  orderedRuleUpdates_sorted [c6u1, c6u2, c6u3] (by decide)

/-! ## Apply Orchestrator (part_000: `handleApplyRulesWorkspace`) -/

/-- Generic first-match association-list lookup (model of `Map.get`). -/
def lookupAssoc {α : Type} : List (Str × α) → Str → Option α
  | [], _ => none
  | (k, v) :: rest, q => if q = k then some v else lookupAssoc rest q

/-- Association-list update (model of `Map.set`): overwrite the first entry
with the key, or append. -/
def setAssoc {α : Type} : List (Str × α) → Str → α → List (Str × α)
  | [], k, v => [(k, v)]
  | (k0, v0) :: rest, k, v =>
      if k0 = k then (k, v) :: rest else (k0, v0) :: setAssoc rest k v

theorem lookupAssoc_setAssoc_self {α : Type} (m : List (Str × α)) (k : Str) (v : α) :
    lookupAssoc (setAssoc m k v) k = some v := by
  induction m with
  | nil => simp [setAssoc, lookupAssoc]
  | cons p rest ih =>
      obtain ⟨k0, v0⟩ := p
      by_cases h : k0 = k
      · simp [setAssoc, h, lookupAssoc]
      · have hk : ¬(k = k0) := fun heq => h heq.symm
        simp [setAssoc, h, lookupAssoc, hk, ih]

theorem lookupAssoc_setAssoc_ne {α : Type} (m : List (Str × α)) (k q : Str) (v : α)
    (h : q ≠ k) : lookupAssoc (setAssoc m k v) q = lookupAssoc m q := by
  induction m with
  | nil => simp [setAssoc, lookupAssoc, h]
  | cons p rest ih =>
      obtain ⟨k0, v0⟩ := p
      by_cases h0 : k0 = k
      · subst h0
        simp [setAssoc, lookupAssoc, h]
      · by_cases hq : q = k0
        · simp [setAssoc, h0, lookupAssoc, hq]
        · simp [setAssoc, h0, lookupAssoc, hq, ih]

/-- The wire sentinels that `remapNodeReference` passes through verbatim. -/
def isWireSentinel (s : Str) : Bool :=
  s = strOf "direct" || s = strOf "direct-out" || s = strOf "block" ||
    s = strOf "block-out" || s = strOf "reject" || s = strOf "reject-out"

/-- Embedding of `remapNodeReference` (part_000 lines 718-737). -/
def remapNodeReference (value : Str) (nodeIdMap : List (Str × Str)) : Str :=
  if trimStr value = [] then trimStr value
  else if isWireSentinel (trimStr value) then trimStr value
  else if isCfgWrapped (trimStr value) then
    strOf "cfg-" ++
      ((lookupAssoc nodeIdMap (cfgInner (trimStr value))).getD (cfgInner (trimStr value))) ++
      strOf "-out"
  else (lookupAssoc nodeIdMap (trimStr value)).getD (trimStr value)

/-- Embedding of `remapRuleSetReference` (part_000 lines 739-743). -/
def remapRuleSetReference (value : Str) (ruleSetIdMap : List (Str × Str)) : Str :=
  if trimStr value = [] then trimStr value
  else (lookupAssoc ruleSetIdMap (trimStr value)).getD (trimStr value)

/-- `NodeCreateRequest` (types/homeproxy.ts lines 250-258). -/
structure NodeCreateRequest where
  id : Option Str
  nodeId : Option Str
  routingId : Option Str
  key : Str
  name : Str
  outbound : Option Str
  deriving DecidableEq, Repr

/-- The object actually passed to `api.createNode` (the `id` field is
destructured away before sending). -/
structure NodeCreateWire where
  nodeId : Option Str
  routingId : Option Str
  key : Str
  name : Str
  outbound : Option Str
  deriving DecidableEq, Repr

/-- `RuleSetCreateRequest` (types/homeproxy.ts lines 335-344). -/
structure RuleSetCreateRequest where
  id : Option Str
  name : Str
  format : Option Str
  url : Str
  outbound : Option Str
  updateInterval : Option Str
  deriving DecidableEq, Repr

/-- `RulesCreateRequest` (types/homeproxy.ts lines 107-116). -/
structure RulesCreateRequest where
  id : Option Str
  name : Option Str
  enabled : Option Bool
  priority : Option Int
  outbound : Option RulesUpdateOutboundW
  config : RulesUpdateConfig
  deriving DecidableEq, Repr

/-- The object passed to `api.updateRule` for one patch. -/
structure RuleUpdateWire where
  tag : Str
  name : Option Str
  enabled : Option Bool
  priority : Option Int
  config : RulesUpdateConfig
  outbound : RulesUpdateOutboundW
  deriving DecidableEq, Repr

/-- `RuleSetUpdateRequest` (types/homeproxy.ts lines 353-362). -/
structure RuleSetUpdateRequest where
  id : Option Str
  name : Option Str
  format : Option Str
  url : Option Str
  outbound : Option Str
  updateInterval : Option Str
  deriving DecidableEq, Repr

/-- One backend call issued during apply, in the order fields are sent. -/
inductive ApiCall where
  | createNode (req : NodeCreateWire)
  | createRuleSet (req : RuleSetCreateRequest)
  | createRule (req : RulesCreateRequest)
  | updateRule (req : RuleUpdateWire)
  | deleteRule (id : Str)
  | renameNode (id : Str) (name : Str)
  | updateRuleSet (req : RuleSetUpdateRequest)
  | deleteRuleSet (id : Str)
  | deleteNode (id : Str)
  | hotReloadRules
  | refetchCollections
  deriving DecidableEq, Repr

/-- The phase index of a call in the fixed execution order of
`handleApplyRulesWorkspace`. -/
def phase : ApiCall → Nat
  | .createNode _ => 0
  | .createRuleSet _ => 1
  | .createRule _ => 2
  | .updateRule _ => 3
  | .deleteRule _ => 4
  | .renameNode _ _ => 5
  | .updateRuleSet _ => 6
  | .deleteRuleSet _ => 7
  | .deleteNode _ => 8
  | .hotReloadRules => 9
  | .refetchCollections => 10

/-- `pendingRoutingId`: the trimmed client-side id of a node create. -/
def tempKeyOf (r : NodeCreateRequest) : Str := trimStr (r.id.getD [])

/-- `requestedRoutingId`: the trimmed requested routing id, falling back to
the pending id. -/
def requestedRoutingIdOf (r : NodeCreateRequest) : Str :=
  if trimStr (r.routingId.getD []) = [] then tempKeyOf r
  else trimStr (r.routingId.getD [])

/-- `requestedNodeId`. -/
def requestedNodeIdOf (r : NodeCreateRequest) : Str := trimStr (r.nodeId.getD [])

/-- The object sent by `api.createNode` for one request, with the outbound
remapped through the temp-id map built so far (part_000 lines 754-761). -/
def sentNodeCreate (r : NodeCreateRequest) (m : List (Str × Str)) : NodeCreateWire :=
  { nodeId :=
      if requestedNodeIdOf r = [] ∧ requestedRoutingIdOf r ≠ [] then
        some (strOf "node_" ++ requestedRoutingIdOf r)
      else r.nodeId
    routingId :=
      if requestedRoutingIdOf r ≠ [] then some (requestedRoutingIdOf r) else r.routingId
    key := r.key
    name := r.name
    outbound := r.outbound.map (fun o => remapNodeReference o m) }

/-- The temp-id map update after one node create returns `rid`
(part_000 lines 763-768). -/
def nodeMapStep (r : NodeCreateRequest) (m : List (Str × Str)) (rid : Str) :
    List (Str × Str) :=
  if requestedRoutingIdOf r ≠ [] then
    setAssoc (if tempKeyOf r ≠ [] then setAssoc m (tempKeyOf r) rid else m)
      (requestedRoutingIdOf r) rid
  else if tempKeyOf r ≠ [] then setAssoc m (tempKeyOf r) rid else m

/-- The node-create loop: the calls issued and the final temp-id map.
`nb i` is the backend-assigned `routingId` of the `i`-th create response. -/
def processNodeCreates :
    List NodeCreateRequest → List (Str × Str) → Nat → (Nat → Str) →
      List ApiCall × List (Str × Str)
  | [], m, _, _ => ([], m)
  | r :: rest, m, i, nb =>
      (ApiCall.createNode (sentNodeCreate r m) ::
          (processNodeCreates rest (nodeMapStep r m (nb i)) (i + 1) nb).1,
        (processNodeCreates rest (nodeMapStep r m (nb i)) (i + 1) nb).2)

/-- The rule-set-create loop (part_000 lines 771-783); `rsb i` is the id in
the `i`-th create response. -/
def processRuleSetCreates :
    List RuleSetCreateRequest → List (Str × Str) → List (Str × Str) → Nat →
      (Nat → Str) → List ApiCall × List (Str × Str)
  | [], _, rsm, _, _ => ([], rsm)
  | r :: rest, nodeMap, rsm, i, rsb =>
      (ApiCall.createRuleSet
          { r with outbound := r.outbound.map (fun o => remapNodeReference o nodeMap) } ::
          (processRuleSetCreates rest nodeMap
            (if trimStr (r.id.getD []) ≠ [] then
              setAssoc rsm (trimStr (r.id.getD [])) (rsb i)
            else rsm) (i + 1) rsb).1,
        (processRuleSetCreates rest nodeMap
          (if trimStr (r.id.getD []) ≠ [] then
            setAssoc rsm (trimStr (r.id.getD [])) (rsb i)
          else rsm) (i + 1) rsb).2)

/-- The object sent by `api.createRule` (part_000 lines 785-801). -/
def sentRuleCreate (r : RulesCreateRequest) (nodeMap ruleSetIdMap : List (Str × Str)) :
    RulesCreateRequest :=
  { r with
    outbound := r.outbound.map (fun ob =>
      if ob.cls = RouteEditClass.proxy ∧ ob.node.getD [] ≠ [] then
        { ob with node := some (remapNodeReference (ob.node.getD []) nodeMap) }
      else ob)
    config := setField r.config RuleFieldKey.ruleSet
      ((getField r.config RuleFieldKey.ruleSet).map
        (fun it => remapRuleSetReference it ruleSetIdMap)) }

/-- The object sent by `api.updateRule` (part_000 lines 812-829). -/
def sentRuleUpdate (p : RuleEditPatch) (nodeMap ruleSetIdMap : List (Str × Str)) :
    RuleUpdateWire :=
  { tag := p.tag, name := p.name, enabled := p.enabled, priority := p.priority
    config := setField p.config RuleFieldKey.ruleSet
      ((getField p.config RuleFieldKey.ruleSet).map
        (fun it => remapRuleSetReference it ruleSetIdMap))
    outbound :=
      if p.outbound.cls = RouteEditClass.proxy ∧ p.outbound.node.getD [] ≠ [] then
        { p.outbound with
          node := some (remapNodeReference (p.outbound.node.getD []) nodeMap) }
      else p.outbound }

/-- The object sent by `api.updateRuleSet` (part_000 lines 839-846). -/
def sentRuleSetUpdate (r : RuleSetUpdateRequest) (nodeMap : List (Str × Str)) :
    RuleSetUpdateRequest :=
  { r with outbound := r.outbound.map (fun o => remapNodeReference o nodeMap) }

/-- `RulesWorkspaceApplyPayload` (RulesTab.tsx lines 52-63). -/
structure RulesWorkspaceApplyPayload where
  totalChanges : Nat
  ruleCreates : List RulesCreateRequest
  ruleUpdates : List RuleEditPatch
  ruleDeletes : List Str
  nodeCreates : List NodeCreateRequest
  nodeRenames : List (Str × Str)
  nodeDeletes : List Str
  ruleSetCreates : List RuleSetCreateRequest
  ruleSetUpdates : List RuleSetUpdateRequest
  ruleSetDeletes : List Str
  deriving Repr

/-- The final node temp-id map of an apply run. -/
def nodeMapOf (p : RulesWorkspaceApplyPayload) (nb : Nat → Str) : List (Str × Str) :=
  (processNodeCreates p.nodeCreates [] 0 nb).2

/-- The final rule-set temp-id map of an apply run. -/
def ruleSetMapOf (p : RulesWorkspaceApplyPayload) (nb rsb : Nat → Str) :
    List (Str × Str) :=
  (processRuleSetCreates p.ruleSetCreates (nodeMapOf p nb) [] 0 rsb).2

/-- Embedding of `handleApplyRulesWorkspace` (part_000 lines 714-868) as the
sequence of backend calls it issues.  The two backend-response oracles `nb`
and `rsb` model the ids assigned by `createNode` and `createRuleSet`; the
final hot-reload trigger and the joint re-fetch of the rule, node and
rule-set collections are the last two entries. -/
def handleApplyRulesWorkspace (p : RulesWorkspaceApplyPayload) (nb rsb : Nat → Str) :
    List ApiCall :=
  if p.totalChanges = 0 then []
  else
    (processNodeCreates p.nodeCreates [] 0 nb).1 ++
      (processRuleSetCreates p.ruleSetCreates (nodeMapOf p nb) [] 0 rsb).1 ++
      p.ruleCreates.map (fun r =>
        ApiCall.createRule (sentRuleCreate r (nodeMapOf p nb) (ruleSetMapOf p nb rsb))) ++
      (orderedRuleUpdates p.ruleUpdates).map (fun u =>
        ApiCall.updateRule (sentRuleUpdate u (nodeMapOf p nb) (ruleSetMapOf p nb rsb))) ++
      p.ruleDeletes.map ApiCall.deleteRule ++
      p.nodeRenames.map (fun nr => ApiCall.renameNode nr.1 nr.2) ++
      p.ruleSetUpdates.map (fun r =>
        ApiCall.updateRuleSet (sentRuleSetUpdate r (nodeMapOf p nb))) ++
      p.ruleSetDeletes.map ApiCall.deleteRuleSet ++
      p.nodeDeletes.map ApiCall.deleteNode ++
      [ApiCall.hotReloadRules, ApiCall.refetchCollections]

theorem processNodeCreates_phase (l : List NodeCreateRequest) (m : List (Str × Str))
    (i : Nat) (nb : Nat → Str) :
    ∀ c ∈ (processNodeCreates l m i nb).1, phase c = 0 := by
  induction l generalizing m i with
  | nil => simp [processNodeCreates]
  | cons r rest ih =>
      intro c hc
      simp only [processNodeCreates, List.mem_cons] at hc
      rcases hc with rfl | hc
      · rfl
      · exact ih _ _ c hc

theorem processRuleSetCreates_phase (l : List RuleSetCreateRequest)
    (nodeMap rsm : List (Str × Str)) (i : Nat) (rsb : Nat → Str) :
    ∀ c ∈ (processRuleSetCreates l nodeMap rsm i rsb).1, phase c = 1 := by
  induction l generalizing rsm i with
  | nil => simp [processRuleSetCreates]
  | cons r rest ih =>
      intro c hc
      simp only [processRuleSetCreates, List.mem_cons] at hc
      rcases hc with rfl | hc
      · rfl
      · exact ih _ _ c hc

theorem pairwise_phase_of_const (l : List ApiCall) (k : Nat)
    (h : ∀ a ∈ l, phase a = k) :
    List.Pairwise (fun a b => phase a ≤ phase b) l := by
  induction l with
  | nil => exact List.Pairwise.nil
  | cons a rest ih =>
      refine List.Pairwise.cons ?_ (ih (fun x hx => h x (by simp [hx])))
      intro b hb
      rw [h a (by simp), h b (by simp [hb])]

theorem pairwise_phase_le_append (l1 l2 : List ApiCall) (n : Nat)
    (h1 : ∀ a ∈ l1, phase a ≤ n) (h2 : ∀ b ∈ l2, n ≤ phase b)
    (p1 : List.Pairwise (fun a b => phase a ≤ phase b) l1)
    (p2 : List.Pairwise (fun a b => phase a ≤ phase b) l2) :
    List.Pairwise (fun a b => phase a ≤ phase b) (l1 ++ l2) :=
  List.pairwise_append.mpr
    ⟨p1, p2, fun a ha b hb => Nat.le_trans (h1 a ha) (h2 b hb)⟩

/-- C2: every apply run issues its backend calls in monotonically
non-decreasing phase order — all node creates, then rule-set creates, then
rule creates, rule updates, rule deletes, node renames, rule-set updates,
rule-set deletes, node deletes — and, whenever the payload carries any
change at all, ends with the hot-reload trigger immediately followed by the
re-fetch of the three collections. -/
theorem applyWorkspace_phase_order (p : RulesWorkspaceApplyPayload)
    (nb rsb : Nat → Str) :
    List.Pairwise (fun a b => phase a ≤ phase b) (handleApplyRulesWorkspace p nb rsb) ∧
      (p.totalChanges ≠ 0 →
        ∃ pre, handleApplyRulesWorkspace p nb rsb =
          pre ++ [ApiCall.hotReloadRules, ApiCall.refetchCollections]) := by
  constructor
  · unfold handleApplyRulesWorkspace
    split_ifs with hz
    · exact List.Pairwise.nil
    simp only [List.append_assoc]
    have c0 := processNodeCreates_phase p.nodeCreates [] 0 nb
    have c1 := processRuleSetCreates_phase p.ruleSetCreates (nodeMapOf p nb) [] 0 rsb
    have c2 : ∀ a ∈ p.ruleCreates.map (fun r =>
        ApiCall.createRule (sentRuleCreate r (nodeMapOf p nb) (ruleSetMapOf p nb rsb))),
        phase a = 2 := by
      intro a ha; obtain ⟨x, -, rfl⟩ := List.mem_map.mp ha; rfl
    have c3 : ∀ a ∈ (orderedRuleUpdates p.ruleUpdates).map (fun u =>
        ApiCall.updateRule (sentRuleUpdate u (nodeMapOf p nb) (ruleSetMapOf p nb rsb))),
        phase a = 3 := by
      intro a ha; obtain ⟨x, -, rfl⟩ := List.mem_map.mp ha; rfl
    have c4 : ∀ a ∈ p.ruleDeletes.map ApiCall.deleteRule, phase a = 4 := by
      intro a ha; obtain ⟨x, -, rfl⟩ := List.mem_map.mp ha; rfl
    have c5 : ∀ a ∈ p.nodeRenames.map (fun nr => ApiCall.renameNode nr.1 nr.2),
        phase a = 5 := by
      intro a ha; obtain ⟨x, -, rfl⟩ := List.mem_map.mp ha; rfl
    have c6 : ∀ a ∈ p.ruleSetUpdates.map (fun r =>
        ApiCall.updateRuleSet (sentRuleSetUpdate r (nodeMapOf p nb))), phase a = 6 := by
      intro a ha; obtain ⟨x, -, rfl⟩ := List.mem_map.mp ha; rfl
    have c7 : ∀ a ∈ p.ruleSetDeletes.map ApiCall.deleteRuleSet, phase a = 7 := by
      intro a ha; obtain ⟨x, -, rfl⟩ := List.mem_map.mp ha; rfl
    have c8 : ∀ a ∈ p.nodeDeletes.map ApiCall.deleteNode, phase a = 8 := by
      intro a ha; obtain ⟨x, -, rfl⟩ := List.mem_map.mp ha; rfl
    have p9 : List.Pairwise (fun a b => phase a ≤ phase b)
        [ApiCall.hotReloadRules, ApiCall.refetchCollections] := by
      refine List.Pairwise.cons ?_ (List.Pairwise.cons (by simp) List.Pairwise.nil)
      intro b hb
      simp only [List.mem_singleton] at hb
      subst hb
      decide
    have b9 : ∀ a ∈ [ApiCall.hotReloadRules, ApiCall.refetchCollections],
        9 ≤ phase a := by
      intro a ha
      rcases List.mem_cons.mp ha with rfl | ha
      · decide
      · simp only [List.mem_singleton] at ha
        subst ha
        decide
    -- fold the segments from the right
    have step : ∀ (k : Nat) (seg rest : List ApiCall),
        (∀ a ∈ seg, phase a = k) →
        (∀ a ∈ rest, k + 1 ≤ phase a) →
        List.Pairwise (fun a b => phase a ≤ phase b) rest →
        List.Pairwise (fun a b => phase a ≤ phase b) (seg ++ rest) ∧
          ∀ a ∈ seg ++ rest, k ≤ phase a := by
      intro k seg rest hseg hrest hp
      refine ⟨pairwise_phase_le_append seg rest k
        (fun a ha => Nat.le_of_eq (hseg a ha))
        (fun b hb => Nat.le_trans (Nat.le_succ k) (hrest b hb))
        (pairwise_phase_of_const seg k hseg) hp, ?_⟩
      intro a ha
      rcases List.mem_append.mp ha with ha | ha
      · exact Nat.le_of_eq (hseg a ha).symm
      · exact Nat.le_trans (Nat.le_succ k) (hrest a ha)
    obtain ⟨p8, b8⟩ := step 8 _ _ c8 b9 p9
    obtain ⟨p7, b7⟩ := step 7 _ _ c7 b8 p8
    obtain ⟨p6, b6⟩ := step 6 _ _ c6 b7 p7
    obtain ⟨p5, b5⟩ := step 5 _ _ c5 b6 p6
    obtain ⟨p4, b4⟩ := step 4 _ _ c4 b5 p5
    obtain ⟨p3, b3⟩ := step 3 _ _ c3 b4 p4
    obtain ⟨p2, b2⟩ := step 2 _ _ c2 b3 p3
    obtain ⟨p1, b1⟩ := step 1 _ _ c1 b2 p2
    exact (step 0 _ _ c0 b1 p1).1
  · intro hz
    refine ⟨(processNodeCreates p.nodeCreates [] 0 nb).1 ++
      (processRuleSetCreates p.ruleSetCreates (nodeMapOf p nb) [] 0 rsb).1 ++
      p.ruleCreates.map (fun r =>
        ApiCall.createRule (sentRuleCreate r (nodeMapOf p nb) (ruleSetMapOf p nb rsb))) ++
      (orderedRuleUpdates p.ruleUpdates).map (fun u =>
        ApiCall.updateRule (sentRuleUpdate u (nodeMapOf p nb) (ruleSetMapOf p nb rsb))) ++
      p.ruleDeletes.map ApiCall.deleteRule ++
      p.nodeRenames.map (fun nr => ApiCall.renameNode nr.1 nr.2) ++
      p.ruleSetUpdates.map (fun r =>
        ApiCall.updateRuleSet (sentRuleSetUpdate r (nodeMapOf p nb))) ++
      p.ruleSetDeletes.map ApiCall.deleteRuleSet ++
      p.nodeDeletes.map ApiCall.deleteNode, ?_⟩
    unfold handleApplyRulesWorkspace
    rw [if_neg hz]

def c2Payload : RulesWorkspaceApplyPayload :=
  { totalChanges := 1, ruleCreates := [], ruleUpdates := [],
    ruleDeletes := [strOf "cfg01"], nodeCreates := [], nodeRenames := [],
    nodeDeletes := [], ruleSetCreates := [], ruleSetUpdates := [],
    ruleSetDeletes := [] }

/-- C2 witness: phase order and final reload/re-fetch on a concrete
one-delete payload. -/
theorem applyWorkspace_phase_order_witness :
    List.Pairwise (fun a b => phase a ≤ phase b)
      (handleApplyRulesWorkspace c2Payload (fun _ => strOf "n") (fun _ => strOf "s")) ∧
      handleApplyRulesWorkspace c2Payload (fun _ => strOf "n") (fun _ => strOf "s") =
        [ApiCall.deleteRule (strOf "cfg01"), ApiCall.hotReloadRules,
          ApiCall.refetchCollections] :=
  ⟨(applyWorkspace_phase_order c2Payload (fun _ => strOf "n") (fun _ => strOf "s")).1,
    by simp [handleApplyRulesWorkspace, c2Payload, orderedRuleUpdates, nodeMapOf,
      ruleSetMapOf, processNodeCreates, processRuleSetCreates]⟩

/-! ## Temp-id resolution of the node-create batch -/

theorem strStarts_decomp (p : Str) : ∀ s : Str, strStarts s p = true →
    s = p ++ s.drop p.length := by
  induction p with
  | nil => intro s _; simp
  | cons d ds ih =>
      intro s h
      cases s with
      | nil => simp [strStarts] at h
      | cons c cs =>
          simp only [strStarts, Bool.and_eq_true, decide_eq_true_eq] at h
          obtain ⟨rfl, h2⟩ := h
          simp only [List.length_cons, List.drop_succ_cons, List.cons_append,
            List.cons.injEq, true_and]
          exact ih cs h2

theorem strEnds_decomp (p s : Str) (h : strEnds s p = true) :
    s = s.take (s.length - p.length) ++ p := by
  unfold strEnds at h
  have h2 := strStarts_decomp p.reverse s.reverse h
  have h3 := congrArg List.reverse h2
  rw [List.reverse_reverse, List.reverse_append] at h3
  rw [List.reverse_drop, List.reverse_reverse, List.reverse_reverse,
    List.length_reverse, List.length_reverse] at h3
  exact h3

theorem cfg_wrap_unwrap (s : Str) (h : isCfgWrapped s = true) :
    strOf "cfg-" ++ cfgInner s ++ strOf "-out" = s := by
  simp only [isCfgWrapped, Bool.and_eq_true, decide_eq_true_eq] at h
  obtain ⟨⟨hstar, hend⟩, hlen⟩ := h
  have h1 : s = strOf "cfg-" ++ s.drop 4 := by
    have := strStarts_decomp (strOf "cfg-") s hstar
    simpa using this
  have h2 : s = s.take (s.length - 4) ++ strOf "-out" := by
    have := strEnds_decomp (strOf "-out") s hend
    simpa using this
  have hdroplen : (s.drop 4).length = s.length - 4 := by simp
  have hc4 : (strOf "cfg-").length = 4 := by decide
  have htake : s.take (s.length - 4) = strOf "cfg-" ++ (s.drop 4).take (s.length - 8) := by
    have hrw : s.take (s.length - 4) = (strOf "cfg-" ++ s.drop 4).take (s.length - 4) := by
      rw [← h1]
    rw [hrw, List.take_append_eq_append_take, hc4]
    have t1 : (strOf "cfg-").take (s.length - 4) = strOf "cfg-" :=
      List.take_of_length_le (by rw [hc4]; omega)
    rw [t1]
    rw [show s.length - 4 - 4 = s.length - 8 by omega]
  have hinner : cfgInner s = (s.drop 4).take (s.length - 8) := by
    unfold cfgInner sliceDrop
    congr 1
  rw [hinner, ← htake]
  exact h2.symm

/-- Pass-through behaviour of `remapNodeReference`: a value whose trimmed
form is neither a key of the map nor a wrapped form with a mapped inner id
is sent back as its trimmed form (sentinels included). -/
theorem remapNodeReference_passthrough (v : Str) (m : List (Str × Str))
    (h1 : lookupAssoc m (trimStr v) = none)
    (h2 : isCfgWrapped (trimStr v) = true →
      lookupAssoc m (cfgInner (trimStr v)) = none) :
    remapNodeReference v m = trimStr v := by
  unfold remapNodeReference
  split_ifs with g1 g2 g3
  · rfl
  · rfl
  · rw [h2 g3]
    simpa using cfg_wrap_unwrap (trimStr v) g3
  · rw [h1]
    rfl

theorem remapNodeReference_lookup (v : Str) (m : List (Str × Str)) (rid : Str)
    (hne : trimStr v ≠ []) (hsent : isWireSentinel (trimStr v) = false)
    (hcfg : isCfgWrapped (trimStr v) = false)
    (hlook : lookupAssoc m (trimStr v) = some rid) :
    remapNodeReference v m = rid := by
  unfold remapNodeReference
  rw [if_neg hne, if_neg (by simp [hsent]), if_neg (by simp [hcfg]), hlook]
  rfl

/-- The temp-id map as it stands when the `j`-th node create of the batch is
about to be issued. -/
def nodeMapBefore :
    List NodeCreateRequest → List (Str × Str) → Nat → (Nat → Str) → Nat →
      List (Str × Str)
  | _, m, _, _, 0 => m
  | [], m, _, _, _ + 1 => m
  | r :: rest, m, i, nb, j + 1 => nodeMapBefore rest (nodeMapStep r m (nb i)) (i + 1) nb j

theorem processNodeCreates_getElem (l : List NodeCreateRequest) :
    ∀ (m : List (Str × Str)) (i : Nat) (nb : Nat → Str) (j : Nat)
      (r : NodeCreateRequest), l[j]? = some r →
      (processNodeCreates l m i nb).1[j]? =
        some (ApiCall.createNode (sentNodeCreate r (nodeMapBefore l m i nb j))) := by
  induction l with
  | nil => intro m i nb j r hj; simp at hj
  | cons r0 rest ih =>
      intro m i nb j r hj
      cases j with
      | zero =>
          simp only [List.getElem?_cons_zero, Option.some.injEq] at hj
          subst hj
          simp [processNodeCreates, nodeMapBefore]
      | succ j =>
          simp only [List.getElem?_cons_succ] at hj
          simp only [processNodeCreates, List.getElem?_cons_succ]
          exact ih (nodeMapStep r0 m (nb i)) (i + 1) nb j r hj

theorem requested_eq_temp (r : NodeCreateRequest) (h : r.routingId = none) :
    requestedRoutingIdOf r = tempKeyOf r := by
  unfold requestedRoutingIdOf
  rw [h]
  rfl

theorem nodeMapStep_lookup_self (r : NodeCreateRequest) (m : List (Str × Str))
    (rid : Str) (h : r.routingId = none) (hk : tempKeyOf r ≠ []) :
    lookupAssoc (nodeMapStep r m rid) (tempKeyOf r) = some rid := by
  unfold nodeMapStep
  rw [requested_eq_temp r h, if_pos hk, if_pos hk]
  exact lookupAssoc_setAssoc_self _ _ _

theorem nodeMapStep_lookup_ne (r : NodeCreateRequest) (m : List (Str × Str))
    (rid : Str) (key : Str) (h : r.routingId = none) (hne : tempKeyOf r ≠ key) :
    lookupAssoc (nodeMapStep r m rid) key = lookupAssoc m key := by
  unfold nodeMapStep
  rw [requested_eq_temp r h]
  by_cases hk : tempKeyOf r = []
  · rw [if_neg (by simpa using hk), if_neg (by simpa using hk)]
  · rw [if_pos hk, if_pos hk]
    rw [lookupAssoc_setAssoc_ne _ _ _ _ (fun heq => hne heq.symm)]
    rw [lookupAssoc_setAssoc_ne _ _ _ _ (fun heq => hne heq.symm)]

theorem nodeMapBefore_preserved (l : List NodeCreateRequest) :
    ∀ (m : List (Str × Str)) (i : Nat) (nb : Nat → Str) (j : Nat) (key : Str),
      (∀ r ∈ l, r.routingId = none) → (∀ r ∈ l, tempKeyOf r ≠ key) →
      lookupAssoc (nodeMapBefore l m i nb j) key = lookupAssoc m key := by
  induction l with
  | nil =>
      intro m i nb j key _ _
      cases j <;> rfl
  | cons r0 rest ih =>
      intro m i nb j key hrouting hne
      cases j with
      | zero => rfl
      | succ j =>
          simp only [nodeMapBefore]
          rw [ih _ _ _ _ _ (fun r hr => hrouting r (by simp [hr]))
            (fun r hr => hne r (by simp [hr]))]
          exact nodeMapStep_lookup_ne r0 m (nb i) key (hrouting r0 (by simp))
            (hne r0 (by simp))

theorem nodeMapBefore_lookup (l : List NodeCreateRequest) :
    ∀ (m : List (Str × Str)) (i : Nat) (nb : Nat → Str) (iA j : Nat)
      (A : NodeCreateRequest),
      l[iA]? = some A → iA < j → tempKeyOf A ≠ [] →
      (∀ r ∈ l, r.routingId = none) →
      (∀ k r2, l[k]? = some r2 → k ≠ iA → tempKeyOf r2 ≠ tempKeyOf A) →
      lookupAssoc (nodeMapBefore l m i nb j) (tempKeyOf A) = some (nb (i + iA)) := by
  induction l with
  | nil => intro m i nb iA j A hA; simp at hA
  | cons r0 rest ih =>
      intro m i nb iA j A hA hij hkey hrouting hdistinct
      cases j with
      | zero => omega
      | succ j =>
          simp only [nodeMapBefore]
          cases iA with
          | zero =>
              simp only [List.getElem?_cons_zero, Option.some.injEq] at hA
              subst hA
              rw [nodeMapBefore_preserved rest _ _ _ _ _
                (fun r hr => hrouting r (by simp [hr]))
                (fun r hr => by
                  obtain ⟨k, hk⟩ := List.getElem?_of_mem hr
                  exact hdistinct (k + 1) r (by simpa using hk) (by omega))]
              rw [nodeMapStep_lookup_self r0 m (nb i) (hrouting r0 (by simp)) hkey]
              rw [Nat.add_zero]
          | succ k =>
              simp only [List.getElem?_cons_succ] at hA
              have := ih (nodeMapStep r0 m (nb i)) (i + 1) nb k j A hA (by omega) hkey
                (fun r hr => hrouting r (by simp [hr]))
                (fun k2 r2 hk2 hne => hdistinct (k2 + 1) r2 (by simpa using hk2)
                  (by omega))
              rw [show i + (k + 1) = i + 1 + k by omega]
              exact this

def c3A : NodeCreateRequest :=
  { id := some (strOf "t1"), nodeId := none, routingId := none,
    key := strOf "vless-key-a", name := strOf "Node A", outbound := some (strOf "direct") }

def c3B : NodeCreateRequest :=
  { id := some (strOf "t2"), nodeId := none, routingId := none,
    key := strOf "vless-key-b", name := strOf "Node B",
    outbound := some (strOf "cfg-t1-out") }

def c3nb : Nat → Str := fun i => if i = 0 then strOf "realA" else strOf "realB"

/-- C3 counterexample: an outbound holding the wrapped form `cfg-t1-out` of a
temporary id is neither itself a key of the temp-id map nor a sentinel, yet
the create call issued for it carries the rewritten value `cfg-realA-out` —
it does not pass through unchanged. -/
theorem nodeCreate_remap_cex :
    (processNodeCreates [c3A, c3B] [] 0 c3nb).1[1]? =
        some (ApiCall.createNode (sentNodeCreate c3B (nodeMapStep c3A [] (strOf "realA")))) ∧
      (sentNodeCreate c3B (nodeMapStep c3A [] (strOf "realA"))).outbound =
        some (strOf "cfg-realA-out") ∧
      isWireSentinel (strOf "cfg-t1-out") = false ∧
      lookupAssoc (nodeMapStep c3A [] (strOf "realA")) (strOf "cfg-t1-out") = none ∧
      strOf "cfg-realA-out" ≠ strOf "cfg-t1-out" := by
  refine ⟨by decide, by decide, by decide, by decide, by decide⟩

/-- C3 (amended): in a node-create batch whose requests carry no explicit
routing id and pairwise-distinct temporary ids, if create `A` precedes create
`B` and `B`'s outbound is `A`'s temporary id (a non-empty id that is neither
a wire sentinel nor itself `cfg-…-out`-shaped), then the call issued for `B`
carries `A`'s backend-assigned routing id as its outbound.  Moreover any
outbound whose trimmed value is neither a key of the temp-id map nor a
wrapped `cfg-<id>-out` form with a mapped inner id is issued as its trimmed
value, unchanged apart from whitespace trimming (a wrapped form with a
mapped inner id is instead rewritten to wrap the real id). -/
theorem nodeCreate_reference_remap (creates : List NodeCreateRequest)
    (nb : Nat → Str) (iA j : Nat) (A B : NodeCreateRequest) (t : Str)
    (hA : creates[iA]? = some A) (hB : creates[j]? = some B) (hij : iA < j)
    (hout : B.outbound = some t) (ht : trimStr t = tempKeyOf A)
    (hkey : tempKeyOf A ≠ [])
    (hsent : isWireSentinel (tempKeyOf A) = false)
    (hcfg : isCfgWrapped (tempKeyOf A) = false)
    (hrouting : ∀ r ∈ creates, r.routingId = none)
    (hnodup : (creates.map tempKeyOf).Nodup) :
    (processNodeCreates creates [] 0 nb).1[j]? =
        some (ApiCall.createNode (sentNodeCreate B (nodeMapBefore creates [] 0 nb j))) ∧
      (sentNodeCreate B (nodeMapBefore creates [] 0 nb j)).outbound = some (nb iA) ∧
      ∀ (v : Str) (m : List (Str × Str)),
        lookupAssoc m (trimStr v) = none →
        (isCfgWrapped (trimStr v) = true →
          lookupAssoc m (cfgInner (trimStr v)) = none) →
        remapNodeReference v m = trimStr v := by
  obtain ⟨hjlt, hBval⟩ := List.getElem?_eq_some_iff.mp hB
  obtain ⟨hialt, hAval⟩ := List.getElem?_eq_some_iff.mp hA
  have hdistinct : ∀ k r2, creates[k]? = some r2 → k ≠ iA →
      tempKeyOf r2 ≠ tempKeyOf A := by
    intro k r2 hk hkne heq
    obtain ⟨hklt, hkval⟩ := List.getElem?_eq_some_iff.mp hk
    have heq2 : (creates.map tempKeyOf)[k]? = (creates.map tempKeyOf)[iA]? := by
      simp [List.getElem?_map, hk, hA, heq]
    have := List.getElem?_inj (by simpa using hklt) hnodup heq2
    exact hkne this
  have hlook : lookupAssoc (nodeMapBefore creates [] 0 nb j) (tempKeyOf A) =
      some (nb iA) := by
    have := nodeMapBefore_lookup creates [] 0 nb iA j A hA hij hkey hrouting hdistinct
    simpa using this
  refine ⟨processNodeCreates_getElem creates [] 0 nb j B hB, ?_, ?_⟩
  · show (sentNodeCreate B (nodeMapBefore creates [] 0 nb j)).outbound = some (nb iA)
    unfold sentNodeCreate
    simp only [hout]
    show some (remapNodeReference t (nodeMapBefore creates [] 0 nb j)) = some (nb iA)
    congr 1
    apply remapNodeReference_lookup
    · rw [ht]; exact hkey
    · rw [ht]; exact hsent
    · rw [ht]; exact hcfg
    · rw [ht]; exact hlook
  · intro v m h1 h2
    exact remapNodeReference_passthrough v m h1 h2

def c3wA : NodeCreateRequest :=
  { id := some (strOf "t1"), nodeId := none, routingId := none,
    key := strOf "k1", name := strOf "A", outbound := none }

def c3wB : NodeCreateRequest :=
  { id := some (strOf "t2"), nodeId := none, routingId := none,
    key := strOf "k2", name := strOf "B", outbound := some (strOf "t1") }

/-- C3 witness: a two-create batch where the second points at the first. -/
theorem nodeCreate_reference_remap_witness :
    (sentNodeCreate c3wB (nodeMapBefore [c3wA, c3wB] [] 0 c3nb 1)).outbound =
        some (c3nb 0) ∧
      remapNodeReference (strOf "node9") [] = strOf "node9" := by
  have h := nodeCreate_reference_remap [c3wA, c3wB] c3nb 0 1 c3wA c3wB (strOf "t1")
    (by decide) (by decide) (by decide) (by decide) (by decide) (by decide)
    (by decide) (by decide) (by decide) (by decide)
  exact ⟨h.2.1, h.2.2 (strOf "node9") [] (by decide) (by decide)⟩

/-! ## Draft Store state and workspace operations (RulesTab.tsx) -/

/-- `RuleSetDraft` (RulesTab.tsx lines 153-160). -/
structure RuleSetDraft where
  id : Str
  name : Str
  format : Str
  url : Str
  outbound : Str
  updateInterval : Str
  deriving DecidableEq, Repr

/-- Embedding of `countRuleSetDraftChanges` (RulesTab.tsx lines 388-396). -/
def countRuleSetDraftChanges (base draft : RuleSetDraft) : Nat :=
  (if base.name = draft.name then 0 else 1) +
    (if base.format = draft.format then 0 else 1) +
    (if base.url = draft.url then 0 else 1) +
    (if normalizeOutboundTarget base.outbound = normalizeOutboundTarget draft.outbound
     then 0 else 1) +
    (if base.updateInterval = draft.updateInterval then 0 else 1)

/-- `RuleCreateDraft` (RulesTab.tsx lines 100-108). -/
structure RuleCreateDraft where
  tempId : Str
  id : Str
  name : Str
  enabled : Bool
  outboundClass : RouteEditClass
  outboundNode : Str
  config : RulesUpdateConfig
  deriving DecidableEq, Repr

/-- `PendingNodeCreateDraft` (RulesTab.tsx lines 145-151). -/
structure PendingNodeCreateDraft where
  tempId : Str
  id : Str
  name : Str
  key : Str
  outbound : Str
  deriving DecidableEq, Repr

/-- `RuleSetCreateDraft` (RulesTab.tsx lines 162-170). -/
structure RuleSetCreateDraft where
  tempId : Str
  id : Str
  name : Str
  format : Str
  url : Str
  outbound : Str
  updateInterval : Str
  deriving DecidableEq, Repr

/-- The read-only props of the workspace: server-fetched collections and the
base drafts derived from them (`rules`, `routingNodes`, `ruleSets`,
`baseRuleDrafts`, `baseRuleSetDrafts`).  Only the projections the workspace
logic reads are carried. -/
structure WorkspaceProps where
  ruleIds : List Str
  baseRuleDrafts : List (Str × RuleDraft)
  nodeIdNames : List (Str × Str)
  ruleSetIds : List Str
  baseRuleSetDrafts : List (Str × RuleSetDraft)
  deriving DecidableEq, Repr

/-- The mutable draft state of the workspace: the three draft collections,
pending creates, pending deletes and the rule orders.  Error-message and
section-focus fields are view-local UI state and are not modeled. -/
structure WorkspaceState where
  ruleDrafts : List (Str × RuleDraft)
  ruleOrder : List Str
  ruleVisualOrder : List Str
  pendingRuleCreates : List RuleCreateDraft
  pendingRuleDeletes : List Str
  priorityDraggedRuleIds : List Str
  nodeRenameDrafts : List (Str × Str)
  pendingNodeCreates : List PendingNodeCreateDraft
  pendingNodeDeletes : List Str
  ruleSetDrafts : List (Str × RuleSetDraft)
  pendingRuleSetCreates : List RuleSetCreateDraft
  pendingRuleSetDeletes : List Str
  deriving DecidableEq, Repr

/-- `orderedRules` (RulesTab.tsx lines 637-654), as a list of ids: the
`ruleOrder` entries that still exist, then the remaining rules in prop
order. -/
def orderedRuleIds (props : WorkspaceProps) (st : WorkspaceState) : List Str :=
  st.ruleOrder.filter (fun rid => props.ruleIds.contains rid) ++
    props.ruleIds.filter (fun rid =>
      !((st.ruleOrder.filter (fun r2 => props.ruleIds.contains r2)).contains rid))

/-- `visibleRules` (RulesTab.tsx lines 666-669), as ids. -/
def visibleRuleIds (props : WorkspaceProps) (st : WorkspaceState) : List Str :=
  (orderedRuleIds props st).filter (fun rid => !(st.pendingRuleDeletes.contains rid))

/-- `pendingRuleKey` (RulesTab.tsx lines 549-551). -/
def pendingRuleKey (tempId : Str) : Str := strOf "new:" ++ tempId

/-- First-occurrence deduplication (the `added` set of `appendByKey`). -/
def dedupKeepFirstAux : List Str → List Str → List Str
  | _, [] => []
  | seen, k :: rest =>
      if seen.contains k then dedupKeepFirstAux seen rest
      else k :: dedupKeepFirstAux (k :: seen) rest

def dedupKeepFirst (l : List Str) : List Str := dedupKeepFirstAux [] l

/-- `visibleRuleItems` (RulesTab.tsx lines 671-712) as the ordered item keys:
visual-order entries that resolve to a pending create or a visible rule,
then all pending creates, then all visible rules, first occurrence wins. -/
def visibleRuleKeys (props : WorkspaceProps) (st : WorkspaceState) : List Str :=
  dedupKeepFirst
    ((st.ruleVisualOrder.filter (fun k =>
        (st.pendingRuleCreates.map (fun d => pendingRuleKey d.tempId)).contains k ||
          (visibleRuleIds props st).contains k)) ++
      st.pendingRuleCreates.map (fun d => pendingRuleKey d.tempId) ++
      visibleRuleIds props st)

/-- `rulePriorityMap` (RulesTab.tsx lines 738-744): item key to visual
position. -/
def rulePriorityMap (props : WorkspaceProps) (st : WorkspaceState) :
    List (Str × Int) :=
  (visibleRuleKeys props st).enum.map (fun p => (p.2, (p.1 : Int)))

/-- `changedRulePatches` (RulesTab.tsx lines 1606-1641) over the full
state. -/
def changedRulePatches (props : WorkspaceProps) (st : WorkspaceState) :
    List RuleEditPatch :=
  props.ruleIds.filterMap (fun rid =>
    if st.pendingRuleDeletes.contains rid then none
    else
      match lookupAssoc props.baseRuleDrafts rid, lookupAssoc st.ruleDrafts rid with
      | some base, some draft =>
          changedRulePatch? base draft (st.priorityDraggedRuleIds.contains rid)
            (lookupAssoc (rulePriorityMap props st) rid)
      | _, _ => none)

/-- `changedRuleCount` (RulesTab.tsx lines 1643-1655) over the full state. -/
def changedRuleCount (props : WorkspaceProps) (st : WorkspaceState) : Nat :=
  (props.ruleIds.map (fun rid =>
    if st.pendingRuleDeletes.contains rid then 0
    else
      match lookupAssoc props.baseRuleDrafts rid, lookupAssoc st.ruleDrafts rid with
      | some base, some draft =>
          ruleDiffContribution base draft (st.priorityDraggedRuleIds.contains rid)
            (lookupAssoc (rulePriorityMap props st) rid)
      | _, _ => 0)).sum

/-- `nodeRenameChanges` (RulesTab.tsx lines 1657-1666). -/
def nodeRenameChanges (props : WorkspaceProps) (st : WorkspaceState) :
    List (Str × Str) :=
  props.nodeIdNames.filterMap (fun nn =>
    if st.pendingNodeDeletes.contains nn.1 then none
    else
      if (lookupAssoc st.nodeRenameDrafts nn.1).getD nn.2 = nn.2 then none
      else some (nn.1, (lookupAssoc st.nodeRenameDrafts nn.1).getD nn.2))

/-- `ruleSetUpdateChanges` (RulesTab.tsx lines 1668-1686). -/
def ruleSetUpdateChanges (props : WorkspaceProps) (st : WorkspaceState) :
    List RuleSetUpdateRequest :=
  props.ruleSetIds.filterMap (fun sid =>
    if st.pendingRuleSetDeletes.contains sid then none
    else
      match lookupAssoc props.baseRuleSetDrafts sid, lookupAssoc st.ruleSetDrafts sid with
      | some base, some draft =>
          if countRuleSetDraftChanges base draft = 0 then none
          else
            some
              { id := some sid, name := some draft.name, format := some draft.format,
                url := some draft.url,
                outbound := some (toRuleSetOutboundValue draft.outbound),
                updateInterval := some draft.updateInterval }
      | _, _ => none)

/-- `ruleSetUpdateCount` (RulesTab.tsx lines 1688-1698). -/
def ruleSetUpdateCount (props : WorkspaceProps) (st : WorkspaceState) : Nat :=
  (props.ruleSetIds.map (fun sid =>
    if st.pendingRuleSetDeletes.contains sid then 0
    else
      match lookupAssoc props.baseRuleSetDrafts sid, lookupAssoc st.ruleSetDrafts sid with
      | some base, some draft => countRuleSetDraftChanges base draft
      | _, _ => 0)).sum

/-- `totalChanges` (RulesTab.tsx lines 1700-1703). -/
def totalChanges (props : WorkspaceProps) (st : WorkspaceState) : Nat :=
  (changedRuleCount props st + st.pendingRuleCreates.length +
      st.pendingRuleDeletes.length) +
    (st.pendingNodeCreates.length + (nodeRenameChanges props st).length +
      st.pendingNodeDeletes.length) +
    (st.pendingRuleSetCreates.length + ruleSetUpdateCount props st +
      st.pendingRuleSetDeletes.length)

/-- The ids of `activeNodeOptions` (RulesTab.tsx lines 827-850): surviving
base nodes plus pending node creates (order is irrelevant for the membership
checks this set serves). -/
def activeNodeIds (props : WorkspaceProps) (st : WorkspaceState) : List Str :=
  (props.nodeIdNames.filter (fun nn => !(st.pendingNodeDeletes.contains nn.1))).map
      (fun nn => nn.1) ++
    st.pendingNodeCreates.map (fun n => n.id)

/-- Embedding of `ensureProxySelection` (RulesTab.tsx lines 1720-1835) as the
pure pass/fail verdict (the focus/error side effects are view state). -/
def ensureProxySelection (props : WorkspaceProps) (st : WorkspaceState) : Bool :=
  (changedRulePatches props st).all (fun patch =>
    if st.pendingRuleDeletes.contains patch.id then true
    else
      (!(patch.outbound.cls = RouteEditClass.proxy &&
          trimStr (patch.outbound.node.getD []) = [])) &&
        (!(patch.outbound.cls = RouteEditClass.proxy &&
            patch.outbound.node.getD [] ≠ [] &&
            !((activeNodeIds props st).contains (patch.outbound.node.getD [])))) &&
        (!(patch.name.isSome && trimStr (patch.name.getD []) = []))) &&
  st.pendingRuleCreates.all (fun d =>
    trimStr d.name ≠ [] &&
      (!(d.outboundClass = RouteEditClass.proxy && trimStr d.outboundNode = [])) &&
      (!(d.outboundClass = RouteEditClass.proxy &&
          !((activeNodeIds props st).contains d.outboundNode)))) &&
  (nodeRenameChanges props st).all (fun nn => trimStr nn.2 ≠ []) &&
  st.pendingNodeCreates.all (fun n => trimStr n.name ≠ [] && trimStr n.key ≠ []) &&
  st.pendingRuleSetCreates.all (fun d => trimStr d.name ≠ [] && trimStr d.url ≠ []) &&
  (ruleSetUpdateChanges props st).all (fun r =>
    if trimStr (r.id.getD []) = [] then true
    else
      (!(r.name.isSome && trimStr (r.name.getD []) = [])) &&
        (!(r.url.isSome && trimStr (r.url.getD []) = [])))

/-- Embedding of `buildApplyPayload` (RulesTab.tsx lines 1837-1879). -/
def buildApplyPayload (props : WorkspaceProps) (st : WorkspaceState) :
    RulesWorkspaceApplyPayload :=
  { totalChanges := totalChanges props st
    ruleCreates := st.pendingRuleCreates.map (fun d =>
      { id := some d.id, name := some d.name, enabled := some d.enabled
        priority := lookupAssoc (rulePriorityMap props st) (pendingRuleKey d.tempId)
        outbound := some
          { cls := d.outboundClass
            node := if d.outboundClass = RouteEditClass.proxy then some d.outboundNode
              else none }
        config := d.config })
    ruleUpdates := changedRulePatches props st
    ruleDeletes := st.pendingRuleDeletes
    nodeCreates := st.pendingNodeCreates.map (fun n =>
      { id := some n.id, nodeId := none, routingId := none, key := trimStr n.key,
        name := trimStr n.name, outbound := some (normalizeOutboundTarget n.outbound) })
    nodeRenames := nodeRenameChanges props st
    nodeDeletes := st.pendingNodeDeletes
    ruleSetCreates := st.pendingRuleSetCreates.map (fun d =>
      { id := some d.id, name := d.name, format := some d.format, url := d.url,
        outbound := some (toRuleSetOutboundValue d.outbound),
        updateInterval := some d.updateInterval })
    ruleSetUpdates := ruleSetUpdateChanges props st
    ruleSetDeletes := st.pendingRuleSetDeletes }

/-- Embedding of `resetAllChanges` (RulesTab.tsx lines 1881-1928) restricted
to the modeled draft state: every collection is re-seeded from the current
props baseline. -/
def resetAllChanges (props : WorkspaceProps) : WorkspaceState :=
  { ruleDrafts := props.baseRuleDrafts
    ruleOrder := props.ruleIds
    ruleVisualOrder := props.ruleIds
    pendingRuleCreates := []
    pendingRuleDeletes := []
    priorityDraggedRuleIds := []
    nodeRenameDrafts := props.nodeIdNames
    pendingNodeCreates := []
    pendingNodeDeletes := []
    ruleSetDrafts := props.baseRuleSetDrafts
    pendingRuleSetCreates := []
    pendingRuleSetDeletes := [] }

/-- Embedding of `applyChanges` (RulesTab.tsx lines 1930-1947).  The network
call `onApplyChanges(buildApplyPayload(...))` is abstracted by the `outcome`
parameter: the payload itself is pure and does not touch the draft state, so
the state transition depends only on whether the collaborator resolves or
throws. -/
def applyChanges (props : WorkspaceProps) (st : WorkspaceState)
    (outcome : Except Str Unit) : WorkspaceState × Except Str Bool :=
  if totalChanges props st = 0 then (st, Except.ok true)
  else if ensureProxySelection props st = false then (st, Except.ok false)
  else
    match outcome with
    | Except.error e => (st, Except.error e)
    | Except.ok _ => (resetAllChanges props, Except.ok true)

/-- `DomainScope` (lib/rule-utils.ts). -/
inductive DomainScope where
  | full | root
  deriving DecidableEq, Repr

/-- The result statuses of `queueQuickDomain`. -/
inductive QuickStatus where
  | added | duplicate
  deriving DecidableEq, Repr

/-- The two throw sites of `queueQuickDomain` (messages are view text). -/
inductive QuickAddError where
  | invalidDomain | ruleNotFound
  deriving DecidableEq, Repr

/-- The target criterion list of a quick add: `domainSuffix` for scope
`root`, `domain` otherwise. -/
def quickTargetField (scope : DomainScope) : RuleFieldKey :=
  if scope = DomainScope.root then RuleFieldKey.domainSuffix else RuleFieldKey.domain

/-- The value queued by a quick add: the normalized domain, with one leading
`*.` stripped for the suffix field. -/
def quickValue (scope : DomainScope) (nd : Str) : Str :=
  if quickTargetField scope = RuleFieldKey.domainSuffix then stripWildcardDot nd else nd

/-- The `setRuleDrafts` updater of `queueQuickDomain` (RulesTab.tsx lines
1967-1984): materialize the draft from base if needed, no-op when the value
is already present, otherwise append it to the target list. -/
def updateRuleDraftsQuick (props : WorkspaceProps) (st : WorkspaceState)
    (ruleId : Str) (field : RuleFieldKey) (value : Str) : List (Str × RuleDraft) :=
  match (lookupAssoc st.ruleDrafts ruleId).orElse
      (fun _ => lookupAssoc props.baseRuleDrafts ruleId) with
  | none => st.ruleDrafts
  | some current =>
      if (getField current.config field).contains value then st.ruleDrafts
      else
        setAssoc st.ruleDrafts ruleId
          { current with
            config := setField current.config field
              (getField current.config field ++ [value]) }

/-- Embedding of `queueQuickDomain` (RulesTab.tsx lines 1949-1993). -/
def queueQuickDomain (props : WorkspaceProps) (st : WorkspaceState)
    (ruleId domain : Str) (scope : DomainScope) :
    Except QuickAddError (QuickStatus × WorkspaceState) :=
  match normalizeDomain domain with
  | none => Except.error QuickAddError.invalidDomain
  | some nd =>
      match (lookupAssoc st.ruleDrafts ruleId).orElse
          (fun _ => lookupAssoc props.baseRuleDrafts ruleId) with
      | none => Except.error QuickAddError.ruleNotFound
      | some baseDraft =>
          if (getField baseDraft.config (quickTargetField scope)).contains
                (quickValue scope nd) ∧
              ¬(st.pendingRuleDeletes.contains ruleId = true) then
            Except.ok (QuickStatus.duplicate, st)
          else
            Except.ok (QuickStatus.added,
              { st with
                ruleDrafts := updateRuleDraftsQuick props st ruleId
                  (quickTargetField scope) (quickValue scope nd)
                pendingRuleDeletes :=
                  st.pendingRuleDeletes.filter (fun x => x ≠ ruleId) })

/-- `ProcessedDomain` (part_002 lines 24-28). -/
structure ProcessedDomain where
  full : Str
  root : Str
  isSub : Bool
  deriving DecidableEq, Repr

/-- Embedding of `resolveProcessedDomain` (part_002 lines 45-59);
`none` is the invalid-domain verdict. -/
def resolveProcessedDomain (rawDomain : Str) : Option ProcessedDomain :=
  match normalizeDomain rawDomain with
  | none => none
  | some n => some { full := n, root := getRootDomain n, isSub := isSubdomain n }

/-- The quick-add pipeline of the rule target picker (part_002
`handleSelectRule`): the selected domain is the root domain for scope `root`
and the full hostname otherwise, and it is handed to `queueQuickDomain`.
`none` models the picker refusing to submit (invalid or empty domain). -/
def quickAddSubmit (props : WorkspaceProps) (st : WorkspaceState)
    (ruleId rawDomain : Str) (scope : DomainScope) :
    Option (Except QuickAddError (QuickStatus × WorkspaceState)) :=
  match resolveProcessedDomain rawDomain with
  | none => none
  | some pd =>
      if (if scope = DomainScope.root then pd.root else pd.full) = [] then none
      else
        some (queueQuickDomain props st ruleId
          (if scope = DomainScope.root then pd.root else pd.full) scope)

/-- C7: the client-side draft state is atomic with respect to apply: when the
abstracted apply sequence throws, every modeled draft collection, pending
list, pending-delete set and the visual order are returned exactly as they
were; when it succeeds (on a payload with changes that passed validation),
the state is reset to the fresh baseline derived from the props. -/
theorem applyWorkspace_atomic (props : WorkspaceProps) (st : WorkspaceState)
    (e : Str) :
    (applyChanges props st (Except.error e)).1 = st ∧
      (totalChanges props st ≠ 0 → ensureProxySelection props st = true →
        applyChanges props st (Except.ok ()) =
          (resetAllChanges props, Except.ok true)) := by
  constructor
  · unfold applyChanges
    split_ifs <;> rfl
  · intro hz hok
    unfold applyChanges
    rw [if_neg hz, if_neg (by simp [hok])]

def c7Rule : RuleDraft :=
  { id := strOf "r1", tag := strOf "cfg0r", name := strOf "Rule",
    enabled := true, priority := 0, config := EMPTY_CONFIG_TEMPLATE,
    outboundClass := RouteEditClass.direct, outboundNode := [] }

def c7Props : WorkspaceProps :=
  { ruleIds := [strOf "r1"], baseRuleDrafts := [(strOf "r1", c7Rule)],
    nodeIdNames := [], ruleSetIds := [], baseRuleSetDrafts := [] }

def c7State : WorkspaceState :=
  { ruleDrafts := [(strOf "r1", c7Rule)], ruleOrder := [strOf "r1"],
    ruleVisualOrder := [strOf "r1"], pendingRuleCreates := [],
    pendingRuleDeletes := [strOf "r1"], priorityDraggedRuleIds := [],
    nodeRenameDrafts := [], pendingNodeCreates := [], pendingNodeDeletes := [],
    ruleSetDrafts := [], pendingRuleSetCreates := [], pendingRuleSetDeletes := [] }

/-- C7 witness: a workspace with one staged rule deletion. -/
theorem applyWorkspace_atomic_witness :
    (applyChanges c7Props c7State (Except.error (strOf "network error"))).1 =
        c7State ∧
      applyChanges c7Props c7State (Except.ok ()) =
        (resetAllChanges c7Props, Except.ok true) :=
  ⟨(applyWorkspace_atomic c7Props c7State (strOf "network error")).1,
    (applyWorkspace_atomic c7Props c7State (strOf "network error")).2
      (by decide) (by decide)⟩

/-- C8: submitting the domain `video.example.com` with scope `root` queues
the root domain `example.com` — not the full hostname — onto the target
rule's `domainSuffix` draft list. -/
theorem quickAdd_root_adds_root_domain (props : WorkspaceProps)
    (st : WorkspaceState) (ruleId : Str) (d : RuleDraft)
    (hd : (lookupAssoc st.ruleDrafts ruleId).orElse
      (fun _ => lookupAssoc props.baseRuleDrafts ruleId) = some d)
    (hnotin : (getField d.config RuleFieldKey.domainSuffix).contains
      (strOf "example.com") = false) :
    quickAddSubmit props st ruleId (strOf "video.example.com") DomainScope.root =
      some (Except.ok (QuickStatus.added,
        { st with
          ruleDrafts := setAssoc st.ruleDrafts ruleId
            { d with
              config := setField d.config RuleFieldKey.domainSuffix
                (getField d.config RuleFieldKey.domainSuffix ++
                  [strOf "example.com"]) }
          pendingRuleDeletes :=
            st.pendingRuleDeletes.filter (fun x => x ≠ ruleId) })) := by
  have hres : normalizeDomain (strOf "example.com") = some (strOf "example.com") := by
    decide
  have hqv : quickValue DomainScope.root (strOf "example.com") = strOf "example.com" := by
    decide
  have hqf : quickTargetField DomainScope.root = RuleFieldKey.domainSuffix := by decide
  have hpipe : quickAddSubmit props st ruleId (strOf "video.example.com")
      DomainScope.root =
      some (queueQuickDomain props st ruleId (strOf "example.com")
        DomainScope.root) := rfl
  rw [hpipe]
  simp only [queueQuickDomain, updateRuleDraftsQuick, hres, hd, hqf, hqv, hnotin,
    Bool.false_eq_true, false_and, if_false, Bool.false_eq_true, if_neg,
    not_false_eq_true]

def c8Rule : RuleDraft :=
  { id := strOf "rule_1", tag := strOf "cfg0s", name := strOf "Streaming",
    enabled := true, priority := 0, config := EMPTY_CONFIG_TEMPLATE,
    outboundClass := RouteEditClass.direct, outboundNode := [] }

def c8Props : WorkspaceProps :=
  { ruleIds := [strOf "rule_1"], baseRuleDrafts := [(strOf "rule_1", c8Rule)],
    nodeIdNames := [], ruleSetIds := [], baseRuleSetDrafts := [] }

def c8State : WorkspaceState :=
  { ruleDrafts := [(strOf "rule_1", c8Rule)], ruleOrder := [strOf "rule_1"],
    ruleVisualOrder := [strOf "rule_1"], pendingRuleCreates := [],
    pendingRuleDeletes := [], priorityDraggedRuleIds := [],
    nodeRenameDrafts := [], pendingNodeCreates := [], pendingNodeDeletes := [],
    ruleSetDrafts := [], pendingRuleSetCreates := [], pendingRuleSetDeletes := [] }

/-- C8 witness: the root-scope quick add on a concrete workspace. -/
theorem quickAdd_root_adds_root_domain_witness :
    quickAddSubmit c8Props c8State (strOf "rule_1") (strOf "video.example.com")
        DomainScope.root =
      some (Except.ok (QuickStatus.added,
        { c8State with
          ruleDrafts := setAssoc c8State.ruleDrafts (strOf "rule_1")
            { c8Rule with
              config := setField c8Rule.config RuleFieldKey.domainSuffix
                (getField c8Rule.config RuleFieldKey.domainSuffix ++
                  [strOf "example.com"]) }
          pendingRuleDeletes :=
            c8State.pendingRuleDeletes.filter (fun x => x ≠ strOf "rule_1") })) :=
  quickAdd_root_adds_root_domain c8Props c8State (strOf "rule_1") c8Rule
    (by decide) (by decide)

/-- C10: queuing a value that is already present in the target list returns
`duplicate` and leaves the state untouched when the rule is not staged for
deletion; but when the rule is in the pending-delete set, the call returns
`added`, inserts no second copy (the drafts are unchanged), and removes the
rule from the pending-delete set. -/
theorem queueQuickDomain_duplicate_semantics (props : WorkspaceProps)
    (st : WorkspaceState) (ruleId domain : Str) (scope : DomainScope)
    (nd : Str) (d : RuleDraft)
    (hnd : normalizeDomain domain = some nd)
    (hd : (lookupAssoc st.ruleDrafts ruleId).orElse
      (fun _ => lookupAssoc props.baseRuleDrafts ruleId) = some d)
    (hin : (getField d.config (quickTargetField scope)).contains
      (quickValue scope nd) = true) :
    (st.pendingRuleDeletes.contains ruleId = false →
        queueQuickDomain props st ruleId domain scope =
          Except.ok (QuickStatus.duplicate, st)) ∧
      (st.pendingRuleDeletes.contains ruleId = true →
        queueQuickDomain props st ruleId domain scope =
          Except.ok (QuickStatus.added,
            { st with
              pendingRuleDeletes :=
                st.pendingRuleDeletes.filter (fun x => x ≠ ruleId) })) := by
  have hin2 : quickValue scope nd ∈ getField d.config (quickTargetField scope) := by
    simpa using hin
  constructor
  · intro hdel
    have hdel2 : ruleId ∉ st.pendingRuleDeletes := by simpa using hdel
    simp [queueQuickDomain, hnd, hd, hin2, hdel2]
  · intro hdel
    have hdel2 : ruleId ∈ st.pendingRuleDeletes := by simpa using hdel
    simp [queueQuickDomain, updateRuleDraftsQuick, hnd, hd, hin2, hdel2]

def c10Rule : RuleDraft :=
  { id := strOf "rule_9", tag := strOf "cfg0t", name := strOf "Ads",
    enabled := true, priority := 0,
    config := { EMPTY_CONFIG_TEMPLATE with domain := [strOf "ads.example.com"] },
    outboundClass := RouteEditClass.direct, outboundNode := [] }

def c10Props : WorkspaceProps :=
  { ruleIds := [strOf "rule_9"], baseRuleDrafts := [(strOf "rule_9", c10Rule)],
    nodeIdNames := [], ruleSetIds := [], baseRuleSetDrafts := [] }

def c10State : WorkspaceState :=
  { ruleDrafts := [(strOf "rule_9", c10Rule)], ruleOrder := [strOf "rule_9"],
    ruleVisualOrder := [strOf "rule_9"], pendingRuleCreates := [],
    pendingRuleDeletes := [strOf "rule_9"], priorityDraggedRuleIds := [],
    nodeRenameDrafts := [], pendingNodeCreates := [], pendingNodeDeletes := [],
    ruleSetDrafts := [], pendingRuleSetCreates := [], pendingRuleSetDeletes := [] }

/-- C10 witness: re-adding an already-present domain to a rule staged for
deletion revives the rule without duplicating the value. -/
theorem queueQuickDomain_duplicate_semantics_witness :
    queueQuickDomain c10Props c10State (strOf "rule_9")
        (strOf "ads.example.com") DomainScope.full =
      Except.ok (QuickStatus.added,
        { c10State with
          pendingRuleDeletes :=
            c10State.pendingRuleDeletes.filter (fun x => x ≠ strOf "rule_9") }) :=
  (queueQuickDomain_duplicate_semantics c10Props c10State (strOf "rule_9")
      (strOf "ads.example.com") DomainScope.full (strOf "ads.example.com") c10Rule
      (by decide) (by decide) (by decide)).2 (by decide)
